import Mathlib

/-!
Verification of the arb-visualizer matching-and-pricing core.

The definitions below are a shallow embedding of the TypeScript sources
`src/server/market-api.ts`, `src/client/src/pages/sentinel.tsx` and
`src/client/src/pages/arbitrage-calculator.tsx`.  JavaScript numbers are
modelled by exact rationals (`ℚ`), strings by lists of characters
(`Str`), and JS `Set`/`Map` objects by lists queried only through
membership (so insertion order, the only other observable, is preserved
where it matters).
-/

/-- Strings are modelled as lists of characters. -/
abbrev Str := List Char

/-- Coerce a Lean string literal to the `Str` character-list view. -/
def str (s : String) : Str := s.data

/-- JS `\w` word characters: ASCII letters, digits and underscore. -/
def isWordChar (c : Char) : Bool :=
  (('a' ≤ c && c ≤ 'z') || ('A' ≤ c && c ≤ 'Z') || ('0' ≤ c && c ≤ '9') || c = '_')

/-- ASCII lower-casing, as `String.prototype.toLowerCase` acts on the
ASCII titles this code handles. -/
def toLowerStr (s : Str) : Str := s.map Char.toLower

/-- `prefixAt p s`: `p` matches at the start of `s`. -/
def prefixAt : Str → Str → Bool
  | [], _ => true
  | _ :: _, [] => false
  | c :: p, d :: s => c = d && prefixAt p s

/-- Substring occurrence (JS `String.prototype.includes` / regex literal). -/
def containsSub : Str → Str → Bool
  | p, [] => p.isEmpty
  | p, d :: s => prefixAt p (d :: s) || containsSub p s

/-- Maker/Taker order styles (`type OrderMode = "Maker" | "Taker"`). -/
inductive OrderMode where
  | Maker : OrderMode
  | Taker : OrderMode
deriving DecidableEq

namespace Sentinel

/-- `calculatePlatformFee` from `src/client/src/pages/sentinel.tsx`
(lines 62-83): per-venue fee for a price (in 0..1), a contract count and
an order mode.  Branch structure and constants follow the source; the
venue name is lower-cased first, as in the source. -/
def calculatePlatformFee (platform : Str) (price : ℚ) (contracts : ℚ)
    (mode : OrderMode) : ℚ :=
  let platformLower := toLowerStr platform
  if platformLower = str (r"kalshi") then
    if mode = OrderMode.Maker then 0 else (7 / 100) * price * (1 - price) * contracts
  else if platformLower = str (r"polymarket") then
    (price * contracts) * (1 / 10000)
  else if platformLower = str (r"predictit") then
    (1 - price) * contracts * (1 / 10)
  else if platformLower = str (r"ibkr") ∨ platformLower = str (r"ibkr forecast") then
    contracts * (1 / 100)
  else 0

/-- The fee-inclusive total cost `(baseCost * maxContracts) + feeA + feeB`
tested by the loop in `calculateScenarioRoi` (sentinel.tsx line 105), at an
integer contract count `n`. -/
def loopCost (platformA : Str) (priceA : ℚ) (platformB : Str) (priceB : ℚ)
    (mode : OrderMode) (n : ℕ) : ℚ :=
  (priceA + priceB) * (n : ℚ)
    + calculatePlatformFee platformA priceA (n : ℚ) mode
    + calculatePlatformFee platformB priceB (n : ℚ) mode

/-- The decrementing contract-count loop in `calculateScenarioRoi`
(sentinel.tsx lines 100-108): starting from a candidate count, decrement
while the fee-inclusive total cost exceeds the investment; stop at zero. -/
def searchContracts (platformA : Str) (priceA : ℚ) (platformB : Str) (priceB : ℚ)
    (investment : ℚ) (mode : OrderMode) : ℕ → ℕ
  | 0 => 0
  | n + 1 =>
    if loopCost platformA priceA platformB priceB mode (n + 1) ≤ investment then n + 1
    else searchContracts platformA priceA platformB priceB investment mode n

/-- The fee-naive starting point `Math.floor(investment / baseCost)` of
the loop, as a natural number.  (For `baseCost = 0` the JS code would
not terminate; rational division by zero makes this 0, and every
theorem touching the loop assumes `0 < baseCost`.) -/
def startContracts (investment baseCost : ℚ) : ℕ :=
  (Int.floor (investment / baseCost)).toNat

/-- `calculateScenarioRoi` from sentinel.tsx (lines 87-121): ROI (as a
percentage) of buying one leg on each venue at the given prices with
the given budget. -/
def calculateScenarioRoi (platformA : Str) (priceA : ℚ) (platformB : Str)
    (priceB : ℚ) (investment : ℚ) (mode : OrderMode) : ℚ :=
  let baseCost := priceA + priceB
  if 1 ≤ baseCost then 0
  else if investment ≤ 0 then 0
  else
    let maxContracts := searchContracts platformA priceA platformB priceB
      investment mode (startContracts investment baseCost)
    if maxContracts = 0 then 0
    else
      let feeA := calculatePlatformFee platformA priceA (maxContracts : ℚ) mode
      let feeB := calculatePlatformFee platformB priceB (maxContracts : ℚ) mode
      let totalInvested := baseCost * (maxContracts : ℚ) + feeA + feeB
      let payout : ℚ := (maxContracts : ℚ)
      let netProfit := payout - totalInvested
      (netProfit / totalInvested) * 100

/-- Result record of `calculateBestRoi` (sentinel.tsx lines 125-158). -/
structure BestRoiResult where
  roi : ℚ
  scenario : ℕ
  feeA : ℚ
  feeB : ℚ
deriving DecidableEq

/-- `calculateBestRoi` from sentinel.tsx (lines 125-158): evaluate both
complementary scenarios from the two YES prices, pick the higher ROI,
and re-derive the fee breakdown of the chosen scenario. -/
def calculateBestRoi (platformA : Str) (priceAYes : ℚ) (platformB : Str)
    (priceBYes : ℚ) (investment : ℚ) (mode : OrderMode) : BestRoiResult :=
  let roi1 := calculateScenarioRoi platformA priceAYes platformB (1 - priceBYes)
    investment mode
  let roi2 := calculateScenarioRoi platformA (1 - priceAYes) platformB priceBYes
    investment mode
  let bestScenario : ℕ := if roi2 ≤ roi1 then 1 else 2
  let bestPriceA := if bestScenario = 1 then priceAYes else 1 - priceAYes
  let bestPriceB := if bestScenario = 1 then 1 - priceBYes else priceBYes
  let baseCost := bestPriceA + bestPriceB
  let start : ℕ := if baseCost < 1 then startContracts investment baseCost else 0
  let contracts := searchContracts platformA bestPriceA platformB bestPriceB
    investment mode start
  { roi := max roi1 roi2
    scenario := bestScenario
    feeA := calculatePlatformFee platformA bestPriceA (contracts : ℚ) mode
    feeB := calculatePlatformFee platformB bestPriceB (contracts : ℚ) mode }

end Sentinel

namespace Calculator

/-- `calculatePlatformFee` from
`src/client/src/pages/arbitrage-calculator.tsx` (lines 90-108).  It
differs from the sentinel page version: Polymarket is charged zero, and
the IBKR branch matches any venue name containing `ibkr` or
`forecastex` rather than two exact names. -/
def calculatePlatformFee (platform : Str) (price : ℚ) (contracts : ℚ)
    (mode : OrderMode) : ℚ :=
  let platformLower := toLowerStr platform
  if platformLower = str (r"kalshi") then
    if mode = OrderMode.Maker then 0 else (7 / 100) * price * (1 - price) * contracts
  else if platformLower = str (r"polymarket") then
    0
  else if platformLower = str (r"predictit") then
    (1 - price) * contracts * (1 / 10)
  else if containsSub (str (r"ibkr")) platformLower
      ∨ containsSub (str (r"forecastex")) platformLower then
    (1 / 100) * contracts
  else 0

end Calculator

/-- Modelled from the spec (§4.6): the contract-count loop of the ROI
routine with both fees identically zero, used as the comparison point
for the "gross ROI" reading of Maker mode. -/
def grossSearchContracts (priceA priceB investment : ℚ) : ℕ → ℕ
  | 0 => 0
  | n + 1 =>
    if (priceA + priceB) * ((n + 1 : ℕ) : ℚ) ≤ investment then n + 1
    else grossSearchContracts priceA priceB investment n

/-- Modelled from the spec (§4.6): `calculateScenarioRoi` with both
fees identically zero (the spec's "gross (no-fee) ROI"). -/
def grossScenarioRoi (priceA priceB investment : ℚ) : ℚ :=
  let baseCost := priceA + priceB
  if 1 ≤ baseCost then 0
  else if investment ≤ 0 then 0
  else
    let maxContracts := grossSearchContracts priceA priceB investment
      (Sentinel.startContracts investment baseCost)
    if maxContracts = 0 then 0
    else
      let totalInvested := baseCost * (maxContracts : ℚ)
      let payout : ℚ := (maxContracts : ℚ)
      let netProfit := payout - totalInvested
      (netProfit / totalInvested) * 100

/-! ### Regex-shaped matchers

`src/server/market-api.ts` matches titles with a fixed family of regex
shapes: plain substrings, substrings followed by a word boundary
(`r\b`), whole words (`\bx\b`), two pieces separated by `.*` or `\s*`,
and one `.?` pattern.  Each shape is embedded as a dedicated scanner
over the character list; `\b` holds between a word and a non-word
character (or an edge), and all patterns used start and end with word
characters except where noted. -/

/-- A position has a word boundary before it when it is the start of
the string or the previous character is a non-word character (patterns
here always start with a word character). -/
def boundaryBefore (prev : Option Char) : Bool :=
  match prev with
  | none => true
  | some c => !isWordChar c

/-- A word boundary holds after a word character when the rest of the
string is empty or starts with a non-word character. -/
def wbAfter (rest : Str) : Bool :=
  match rest with
  | [] => true
  | c :: _ => !isWordChar c

/-- `p` matches at the start of `s` and is followed by a word boundary
(for patterns ending in a word character). -/
def prefixWB (p s : Str) : Bool :=
  prefixAt p s && wbAfter (s.drop p.length)

/-- Occurrence of `p` followed by a word boundary, anywhere (`p\b`). -/
def containsSubWB (p : Str) : Str → Bool
  | [] => prefixWB p []
  | d :: s => prefixWB p (d :: s) || containsSubWB p s

/-- Helper for `containsWord`, tracking the previous character. -/
def containsWordAux (p : Str) (prev : Option Char) : Str → Bool
  | [] => false
  | d :: s => (boundaryBefore prev && prefixWB p (d :: s))
      || containsWordAux p (some d) s

/-- Whole-word occurrence `\bp\b` (for `p` starting and ending in word
characters, as all dictionary variants do). -/
def containsWord (p s : Str) : Bool := containsWordAux p none s

/-- Helper for `containsSeq`. -/
def containsSeqAux (p q : Str) : Str → Bool
  | [] => false
  | d :: s => (prefixAt p (d :: s) && containsSub q ((d :: s).drop p.length))
      || containsSeqAux p q s

/-- Occurrence of `p`, then anything, then `q` (the `/p.*q/` shape;
`.*` not matching newlines is immaterial for one-line titles). -/
def containsSeq (p q : Str) (s : Str) : Bool := containsSeqAux p q s

/-- Helper for `containsPairWB`. -/
def containsPairWBAux (a b : Str) (prev : Option Char) : Str → Bool
  | [] => false
  | d :: s =>
    (boundaryBefore prev && prefixAt a (d :: s)
      && prefixWB b (((d :: s).drop a.length).dropWhile (fun c => c.isWhitespace)))
    || containsPairWBAux a b (some d) s

/-- The `/\ba\s*b\b/` shape: word-boundary, `a`, any run of whitespace
(possibly empty), `b`, word-boundary.  Greedily skipping the full
whitespace run is faithful because `b` starts with a non-whitespace
character. -/
def containsPairWB (a b : Str) (s : Str) : Bool := containsPairWBAux a b none s

/-- Helper for `matchesOcasio`. -/
def ocasioAux (prev : Option Char) : Str → Bool
  | [] => false
  | d :: s =>
    (boundaryBefore prev && prefixAt (str (r"ocasio")) (d :: s)
      && (prefixWB (str (r"cortez")) ((d :: s).drop 6)
        || (match (d :: s).drop 6 with
            | [] => false
            | _ :: rest => prefixWB (str (r"cortez")) rest)))
    || ocasioAux (some d) s

/-- The candidate indexer's `/\bocasio.?cortez\b/i` pattern: `ocasio`,
at most one arbitrary character, `cortez`, inside word boundaries. -/
def matchesOcasio (s : Str) : Bool := ocasioAux none s

/-! ### Entity extraction (`extractEntities`, market-api.ts 424-587) -/

namespace MarketApi

/-- The typed signal bag extracted from a title.  JS `Set`s are modelled
by insertion-ordered duplicate-free lists (only membership and iteration
order are observable downstream). -/
structure EntityBag where
  names : List Str
  numbers : List Str
  years : List Str
  party : Option Str
  states : List Str
  timeFrames : List Str
deriving DecidableEq

/-- Insertion into an insertion-ordered set (`Set.prototype.add`). -/
def insertOnce (x : Str) (l : List Str) : List Str :=
  if x ∈ l then l else l ++ [x]

/-- Left fold of `insertOnce` (`new Set(array)`). -/
def setOfList (l : List Str) : List Str :=
  l.foldl (fun acc x => insertOnce x acc) []

/-- The year tokens matched by `/\b(202[4-9]|203[0-9])\b/g`.  Distinct
matches cannot overlap, so the match set equals the set of year tokens
occurring as whole words. -/
def yearTokens : List Str :=
  [str (r"2024"), str (r"2025"), str (r"2026"), str (r"2027"), str (r"2028"),
   str (r"2029"), str (r"2030"), str (r"2031"), str (r"2032"), str (r"2033"),
   str (r"2034"), str (r"2035"), str (r"2036"), str (r"2037"), str (r"2038"),
   str (r"2039")]

/-- Years of a (lower-cased) title. -/
def yearsOf (normalized : Str) : List Str :=
  yearTokens.filter (fun y => containsWord y normalized)

/-- ASCII digit test. -/
def isDigitChar (c : Char) : Bool := '0' ≤ c && c ≤ '9'

/-- The optional `%?k?\b` tail of the number regex, with the regex
engine's backtracking order (`%k`, `%`, `k`, nothing), returning the
consumed tail and the rest.  After `%` (a non-word character) the
boundary requires a following word character; after `k` or a digit it
requires a non-word character or the end. -/
def tailNum (r : Str) : Option (Str × Str) :=
  let pk : Option (Str × Str) :=
    match r with
    | '%' :: 'k' :: rest => if wbAfter rest then some ([ '%', 'k'], rest) else none
    | _ => none
  let pPct : Option (Str × Str) :=
    match r with
    | '%' :: rest =>
      match rest with
      | c :: _ => if isWordChar c then some (['%'], rest) else none
      | [] => none
    | _ => none
  let pK : Option (Str × Str) :=
    match r with
    | 'k' :: rest => if wbAfter rest then some (['k'], rest) else none
    | _ => none
  let pEps : Option (Str × Str) := if wbAfter r then some ([], r) else none
  (((pk.orElse fun _ => pPct).orElse fun _ => pK).orElse fun _ => pEps)

/-- Greedy match of `\d+(?:\.\d+)?%?k?\b` at the current position
(caller has checked the boundary before and that the head is a digit).
Backtracking to shorter digit runs can never succeed — the following
character would be a digit, failing every optional branch and the
boundary — so only the greedy digit runs are tried, with the fractional
part preferred, exactly as the regex engine does. -/
def matchNumAt (s : Str) : Option (Str × Str) :=
  let ds := s.takeWhile isDigitChar
  let r0 := s.drop ds.length
  if ds.isEmpty then none
  else
    let withFrac : Option (Str × Str) :=
      match r0 with
      | '.' :: r1 =>
        let fs := r1.takeWhile isDigitChar
        if fs.isEmpty then none
        else
          match tailNum (r1.drop fs.length) with
          | some (t, rest) => some (ds ++ '.' :: (fs ++ t), rest)
          | none => none
      | _ => none
    match withFrac with
    | some res => some res
    | none =>
      match tailNum r0 with
      | some (t, rest) => some (ds ++ t, rest)
      | none => none

/-- Fuel-indexed global scan for `/\b\d+(?:\.\d+)?%?k?\b/g`: find
non-overlapping matches left to right.  Every step consumes at least
one character, so fuel equal to the string length is always enough. -/
def scanNumbersF : ℕ → Option Char → Str → List Str
  | 0, _, _ => []
  | _ + 1, _, [] => []
  | fuel + 1, prev, c :: rest =>
    if boundaryBefore prev && isDigitChar c then
      match matchNumAt (c :: rest) with
      | some (m, after) => m :: scanNumbersF fuel m.getLast? after
      | none => scanNumbersF fuel (some c) rest
    else scanNumbersF fuel (some c) rest

/-- All matches of the number regex in a title. -/
def scanNumbers (s : Str) : List Str := scanNumbersF s.length none s

/-- Numeric value of a digit run. -/
def natOfDigits (ds : Str) : ℕ :=
  ds.foldl (fun acc c => 10 * acc + (c.toNat - '0'.toNat)) 0

/-- `parseFloat` on a number match with its `k` stripped: leading
digits, optional fraction, trailing junk (such as `%`) ignored. -/
def parseDecimal (m : Str) : ℚ :=
  let ds := m.takeWhile isDigitChar
  let intPart : ℚ := (natOfDigits ds : ℚ)
  match m.drop ds.length with
  | '.' :: r1 =>
    let fs := r1.takeWhile isDigitChar
    intPart + (natOfDigits fs : ℚ) / ((10 : ℚ) ^ fs.length)
  | _ => intPart

/-- Decimal rendering of a non-negative rational whose denominator
divides a power of ten — `Number.prototype.toString` for the exact
values produced by `parseFloat(..) * 1000`.  (JS binary floats can
round pathological inputs such as `0.1k`; no claim depends on the
numbers set, and the exact reading is recorded here.) -/
def ratToDecimalString (q : ℚ) : Str :=
  let e := ((List.range 31).find? (fun e => (q * (10 : ℚ) ^ e).den = 1)).getD 0
  let n := (q * (10 : ℚ) ^ e).num.toNat
  if e = 0 then Nat.toDigits 10 n
  else
    let frac := Nat.toDigits 10 (n % 10 ^ e)
    Nat.toDigits 10 (n / 10 ^ e) ++ '.'
      :: (List.replicate (e - frac.length) '0' ++ frac)

/-- The numbers set: matches longer than one character, with
`k`-suffixed values scaled by 1000 and re-rendered in decimal
(market-api.ts 439-451). -/
def numbersOf (normalized : Str) : List Str :=
  (scanNumbers normalized).foldl
    (fun acc num =>
      if num.length > 1 then
        if num.getLast? = some 'k' then
          insertOnce (ratToDecimalString (parseDecimal num.dropLast * 1000)) acc
        else insertOnce num acc
      else acc) []

/-- Party tag (market-api.ts 453-456): the republican test
`/republican|gop|rnc|r\b/i` runs first, then the democrat test
`/democrat|dnc|dem\b|d\b/i`; note `r\b` is any `r` at a word end, not a
bare word `r`. -/
def partyOf (normalized : Str) : Option Str :=
  if containsSub (str (r"republican")) normalized
      || containsSub (str (r"gop")) normalized
      || containsSub (str (r"rnc")) normalized
      || containsSubWB (str (r"r")) normalized then
    some (str (r"republican"))
  else if containsSub (str (r"democrat")) normalized
      || containsSub (str (r"dnc")) normalized
      || containsSubWB (str (r"dem")) normalized
      || containsSubWB (str (r"d")) normalized then
    some (str (r"democrat"))
  else none

/-- The state dictionary (market-api.ts 459-510), canonical name first. -/
def stateMap : List (Str × List Str) :=
  [(str (r"alabama"), [str (r"alabama"), str (r"al")]),
   (str (r"alaska"), [str (r"alaska"), str (r"ak")]),
   (str (r"arizona"), [str (r"arizona"), str (r"az")]),
   (str (r"arkansas"), [str (r"arkansas"), str (r"ar")]),
   (str (r"california"), [str (r"california"), str (r"ca"), str (r"calif")]),
   (str (r"colorado"), [str (r"colorado"), str (r"co"), str (r"colo")]),
   (str (r"connecticut"), [str (r"connecticut"), str (r"ct"), str (r"conn")]),
   (str (r"delaware"), [str (r"delaware"), str (r"de"), str (r"del")]),
   (str (r"florida"), [str (r"florida"), str (r"fl"), str (r"fla")]),
   (str (r"georgia"), [str (r"georgia"), str (r"ga")]),
   (str (r"hawaii"), [str (r"hawaii"), str (r"hi")]),
   (str (r"idaho"), [str (r"idaho"), str (r"id")]),
   (str (r"illinois"), [str (r"illinois"), str (r"il"), str (r"ill")]),
   (str (r"indiana"), [str (r"indiana"), str (r"in"), str (r"ind")]),
   (str (r"iowa"), [str (r"iowa"), str (r"ia")]),
   (str (r"kansas"), [str (r"kansas"), str (r"ks"), str (r"kan")]),
   (str (r"kentucky"), [str (r"kentucky"), str (r"ky")]),
   (str (r"louisiana"), [str (r"louisiana"), str (r"la")]),
   (str (r"maine"), [str (r"maine"), str (r"me")]),
   (str (r"maryland"), [str (r"maryland"), str (r"md")]),
   (str (r"massachusetts"), [str (r"massachusetts"), str (r"ma"), str (r"mass")]),
   (str (r"michigan"), [str (r"michigan"), str (r"mi"), str (r"mich")]),
   (str (r"minnesota"), [str (r"minnesota"), str (r"mn"), str (r"minn")]),
   (str (r"mississippi"), [str (r"mississippi"), str (r"ms"), str (r"miss")]),
   (str (r"missouri"), [str (r"missouri"), str (r"mo")]),
   (str (r"montana"), [str (r"montana"), str (r"mt"), str (r"mont")]),
   (str (r"nebraska"), [str (r"nebraska"), str (r"ne"), str (r"neb")]),
   (str (r"nevada"), [str (r"nevada"), str (r"nv"), str (r"nev")]),
   (str (r"new hampshire"), [str (r"new hampshire"), str (r"nh"), str (r"n h")]),
   (str (r"new jersey"), [str (r"new jersey"), str (r"nj"), str (r"n j")]),
   (str (r"new mexico"), [str (r"new mexico"), str (r"nm"), str (r"n m")]),
   (str (r"new york"), [str (r"new york"), str (r"ny"), str (r"n y")]),
   (str (r"north carolina"), [str (r"north carolina"), str (r"nc"), str (r"n c")]),
   (str (r"north dakota"), [str (r"north dakota"), str (r"nd"), str (r"n d")]),
   (str (r"ohio"), [str (r"ohio"), str (r"oh")]),
   (str (r"oklahoma"), [str (r"oklahoma"), str (r"ok"), str (r"okla")]),
   (str (r"oregon"), [str (r"oregon"), str (r"or"), str (r"ore")]),
   (str (r"pennsylvania"), [str (r"pennsylvania"), str (r"pa"), str (r"penn")]),
   (str (r"rhode island"), [str (r"rhode island"), str (r"ri"), str (r"r i")]),
   (str (r"south carolina"), [str (r"south carolina"), str (r"sc"), str (r"s c")]),
   (str (r"south dakota"), [str (r"south dakota"), str (r"sd"), str (r"s d")]),
   (str (r"tennessee"), [str (r"tennessee"), str (r"tn"), str (r"tenn")]),
   (str (r"texas"), [str (r"texas"), str (r"tx"), str (r"tex")]),
   (str (r"utah"), [str (r"utah"), str (r"ut")]),
   (str (r"vermont"), [str (r"vermont"), str (r"vt")]),
   (str (r"virginia"), [str (r"virginia"), str (r"va")]),
   (str (r"washington"), [str (r"washington"), str (r"wa"), str (r"wash")]),
   (str (r"west virginia"), [str (r"west virginia"), str (r"wv"), str (r"w va")]),
   (str (r"wisconsin"), [str (r"wisconsin"), str (r"wi"), str (r"wis")]),
   (str (r"wyoming"), [str (r"wyoming"), str (r"wy"), str (r"wyo")])]

/-- States whose any variant occurs as a whole word; the canonical name
is recorded (market-api.ts 512-521). -/
def statesOf (normalized : Str) : List Str :=
  stateMap.foldl
    (fun acc entry =>
      if entry.2.any (fun v => containsWord v normalized) then acc ++ [entry.1]
      else acc) []

/-- Quarter alternatives of
`/\b(q[1-4]|quarter\s*[1-4]|first\s*quarter|...)\b/gi` paired with
their whitespace-stripped normal forms (market-api.ts 525-531).  The
matched-substring set of the global scan equals the set of alternatives
that match, and stripping whitespace collapses every match of one
alternative to the same token. -/
def quarterAlts : List ((Str → Bool) × Str) :=
  [(containsWord (str (r"q1")), str (r"q1")),
   (containsWord (str (r"q2")), str (r"q2")),
   (containsWord (str (r"q3")), str (r"q3")),
   (containsWord (str (r"q4")), str (r"q4")),
   (containsPairWB (str (r"quarter")) (str (r"1")), str (r"quarter1")),
   (containsPairWB (str (r"quarter")) (str (r"2")), str (r"quarter2")),
   (containsPairWB (str (r"quarter")) (str (r"3")), str (r"quarter3")),
   (containsPairWB (str (r"quarter")) (str (r"4")), str (r"quarter4")),
   (containsPairWB (str (r"first")) (str (r"quarter")), str (r"firstquarter")),
   (containsPairWB (str (r"second")) (str (r"quarter")), str (r"secondquarter")),
   (containsPairWB (str (r"third")) (str (r"quarter")), str (r"thirdquarter")),
   (containsPairWB (str (r"fourth")) (str (r"quarter")), str (r"fourthquarter"))]

/-- Month alternatives of the month regex (market-api.ts 533-544),
paired with their `monthMap` normal forms (full names and `sept` map to
the three-letter code, bare codes stay). -/
def monthAlts : List (Str × Str) :=
  [(str (r"january"), str (r"jan")), (str (r"february"), str (r"feb")),
   (str (r"march"), str (r"mar")), (str (r"april"), str (r"apr")),
   (str (r"may"), str (r"may")), (str (r"june"), str (r"jun")),
   (str (r"july"), str (r"jul")), (str (r"august"), str (r"aug")),
   (str (r"september"), str (r"sep")), (str (r"october"), str (r"oct")),
   (str (r"november"), str (r"nov")), (str (r"december"), str (r"dec")),
   (str (r"jan"), str (r"jan")), (str (r"feb"), str (r"feb")),
   (str (r"mar"), str (r"mar")), (str (r"apr"), str (r"apr")),
   (str (r"jun"), str (r"jun")), (str (r"jul"), str (r"jul")),
   (str (r"aug"), str (r"aug")), (str (r"sep"), str (r"sep")),
   (str (r"sept"), str (r"sep")), (str (r"oct"), str (r"oct")),
   (str (r"nov"), str (r"nov")), (str (r"dec"), str (r"dec"))]

/-- Time-frame set: normalized quarter tokens then normalized month
codes, in insertion order (market-api.ts 523-544). -/
def timeFramesOf (normalized : Str) : List Str :=
  let qs := quarterAlts.foldl
    (fun acc alt => if alt.1 normalized then insertOnce alt.2 acc else acc) []
  monthAlts.foldl
    (fun acc alt =>
      if containsWord alt.1 normalized then insertOnce alt.2 acc else acc) qs

/-- The curated named-entity dictionary (market-api.ts 547-573),
canonical key first. -/
def nameMap : List (Str × List Str) :=
  [(str (r"trump"), [str (r"trump"), str (r"donald trump")]),
   (str (r"biden"), [str (r"biden"), str (r"joe biden")]),
   (str (r"harris"), [str (r"harris"), str (r"kamala harris"), str (r"kamala")]),
   (str (r"desantis"), [str (r"desantis"), str (r"ron desantis")]),
   (str (r"newsom"), [str (r"newsom"), str (r"gavin newsom")]),
   (str (r"musk"), [str (r"musk"), str (r"elon musk"), str (r"elon")]),
   (str (r"vance"), [str (r"vance"), str (r"jd vance")]),
   (str (r"pence"), [str (r"pence"), str (r"mike pence")]),
   (str (r"haley"), [str (r"haley"), str (r"nikki haley")]),
   (str (r"ramaswamy"), [str (r"ramaswamy"), str (r"vivek ramaswamy"), str (r"vivek")]),
   (str (r"cruz"), [str (r"cruz"), str (r"ted cruz")]),
   (str (r"rubio"), [str (r"rubio"), str (r"marco rubio")]),
   (str (r"warren"), [str (r"warren"), str (r"elizabeth warren")]),
   (str (r"sanders"), [str (r"sanders"), str (r"bernie sanders"), str (r"bernie")]),
   (str (r"buttigieg"), [str (r"buttigieg"), str (r"pete buttigieg"), str (r"pete")]),
   (str (r"ocasio-cortez"), [str (r"ocasio-cortez"), str (r"aoc"), str (r"alexandria ocasio-cortez")]),
   (str (r"bitcoin"), [str (r"bitcoin"), str (r"btc")]),
   (str (r"ethereum"), [str (r"ethereum"), str (r"eth")]),
   (str (r"chiefs"), [str (r"chiefs"), str (r"kansas city chiefs"), str (r"kc chiefs")]),
   (str (r"eagles"), [str (r"eagles"), str (r"philadelphia eagles")]),
   (str (r"bills"), [str (r"bills"), str (r"buffalo bills")]),
   (str (r"lions"), [str (r"lions"), str (r"detroit lions")]),
   (str (r"cowboys"), [str (r"cowboys"), str (r"dallas cowboys")]),
   (str (r"packers"), [str (r"packers"), str (r"green bay packers")]),
   (str (r"49ers"), [str (r"49ers"), str (r"niners"), str (r"san francisco 49ers")])]

/-- Named entities whose any variant occurs as a whole word; the
canonical key is recorded (market-api.ts 575-584). -/
def namesOf (normalized : Str) : List Str :=
  nameMap.foldl
    (fun acc entry =>
      if entry.2.any (fun v => containsWord v normalized) then acc ++ [entry.1]
      else acc) []

/-- `extractEntities` (market-api.ts 424-587): lower-case the title and
extract every category independently. -/
def extractEntities (title : Str) : EntityBag :=
  let normalized := toLowerStr title
  { names := namesOf normalized
    numbers := numbersOf normalized
    years := yearsOf normalized
    party := partyOf normalized
    states := statesOf normalized
    timeFrames := timeFramesOf normalized }

end MarketApi

/-! ### Title normalization and token similarity (market-api.ts 589-649) -/

namespace MarketApi

/-- Fuel-indexed `String.prototype.replace` with a `g`-flagged
alternation of plain strings: scan left to right, at each position try
the alternatives in order (regex alternation is leftmost-first, not
longest), replace and continue after the match.  All alternatives are
non-empty so each step consumes at least one input character and fuel
equal to the input length suffices. -/
def replaceAltsAux (alts : List Str) (repl : Str) : ℕ → Str → Str
  | 0, s => s
  | _ + 1, [] => []
  | fuel + 1, c :: rest =>
    match alts.find? (fun a => prefixAt a (c :: rest)) with
    | some a => repl ++ replaceAltsAux alts repl fuel ((c :: rest).drop a.length)
    | none => c :: replaceAltsAux alts repl fuel rest

/-- Global replace of an alternation of plain strings. -/
def replaceAlts (alts : List Str) (repl : Str) (s : Str) : Str :=
  replaceAltsAux alts repl s.length s

/-- Replace every character outside `\w` and whitespace by a space
(the `/[^\w\s]/g → ' '` step). -/
def punctToSpace (s : Str) : Str :=
  s.map (fun c => if !(isWordChar c || c.isWhitespace) then ' ' else c)

/-- Collapse whitespace runs to single spaces (`/\s+/g → ' '`); the
flag records whether the previous character was part of a run. -/
def collapseWSAux : Bool → Str → Str
  | _, [] => []
  | inRun, c :: rest =>
    if c.isWhitespace then
      if inRun then collapseWSAux true rest
      else ' ' :: collapseWSAux true rest
    else c :: collapseWSAux false rest

/-- `String.prototype.trim`. -/
def trimWS (s : Str) : Str :=
  ((s.dropWhile fun c => c.isWhitespace).reverse.dropWhile
    fun c => c.isWhitespace).reverse

/-- `normalizeTitle` (market-api.ts 590-616): lower-case, canonicalize
month names, political terms, midterms and US-country variants, drop
question marks, replace other punctuation by spaces, collapse
whitespace and trim.  The replacements are plain global substring
replaces, in source order (so, for example, `gopher` becomes
`republicanher`, as in the JS code). -/
def normalizeTitle (title : Str) : Str :=
  let s := toLowerStr title
  let s := replaceAlts [str (r"january"), str (r"jan")] (str (r"jan")) s
  let s := replaceAlts [str (r"february"), str (r"feb")] (str (r"feb")) s
  let s := replaceAlts [str (r"march"), str (r"mar")] (str (r"mar")) s
  let s := replaceAlts [str (r"april"), str (r"apr")] (str (r"apr")) s
  let s := replaceAlts [str (r"may")] (str (r"may")) s
  let s := replaceAlts [str (r"june"), str (r"jun")] (str (r"jun")) s
  let s := replaceAlts [str (r"july"), str (r"jul")] (str (r"jul")) s
  let s := replaceAlts [str (r"august"), str (r"aug")] (str (r"aug")) s
  let s := replaceAlts [str (r"september"), str (r"sept"), str (r"sep")] (str (r"sep")) s
  let s := replaceAlts [str (r"october"), str (r"oct")] (str (r"oct")) s
  let s := replaceAlts [str (r"november"), str (r"nov")] (str (r"nov")) s
  let s := replaceAlts [str (r"december"), str (r"dec")] (str (r"dec")) s
  let s := replaceAlts [str (r"republican"), str (r"gop"), str (r"rnc")] (str (r"republican")) s
  let s := replaceAlts [str (r"democratic"), str (r"dem"), str (r"dnc")] (str (r"democratic")) s
  let s := replaceAlts [str (r"midterm elections"), str (r"midterm election")] (str (r"midterms")) s
  let s := replaceAlts [str (r"united states"), str (r"u.s."), str (r"usa")] (str (r"us")) s
  let s := replaceAlts [str (r"?")] [] s
  trimWS (collapseWSAux false (punctToSpace s))

/-- The stop-word list of `extractTokens` (market-api.ts 620). -/
def stopWords : List Str :=
  [str (r"will"), str (r"the"), str (r"a"), str (r"an"), str (r"be"),
   str (r"is"), str (r"are"), str (r"was"), str (r"were"), str (r"in"),
   str (r"on"), str (r"at"), str (r"to"), str (r"for"), str (r"of"),
   str (r"by"), str (r"with"), str (r"or"), str (r"and"), str (r"more"),
   str (r"than"), str (r"less"), str (r"yes"), str (r"no"), str (r"win"),
   str (r"who"), str (r"what"), str (r"when"), str (r"where"), str (r"how")]

/-- Split on spaces (after `normalizeTitle`, whitespace is collapsed to
single interior spaces, so splitting on the space character matches the
source's `split(/\s+/)`). -/
def splitOnSpaceAux (cur : Str) : Str → List Str
  | [] => [cur.reverse]
  | c :: rest =>
    if c = ' ' then cur.reverse :: splitOnSpaceAux [] rest
    else splitOnSpaceAux (c :: cur) rest

/-- Splitting a normalized title into words. -/
def splitOnSpace (s : Str) : List Str := splitOnSpaceAux [] s

/-- `extractTokens` (market-api.ts 619-626): normalize, split, drop
short words and stop words, collect into a set. -/
def extractTokens (title : Str) : List Str :=
  setOfList ((splitOnSpace (normalizeTitle title)).filter
    (fun w => w.length > 2 && !(stopWords.contains w)))

/-- `jaccardSimilarity` (market-api.ts 629-635) over the token sets. -/
def jaccardSimilarity (setA setB : List Str) : ℚ :=
  let inter := setA.filter (fun x => setB.contains x)
  let union := setOfList (setA ++ setB)
  if union.length > 0 then (inter.length : ℚ) / (union.length : ℚ) else 0

/-- `SPECIFIC_EVENT_PATTERNS` (market-api.ts 396-421): each row is the
conjunction of its regexes (matched case-insensitively, embedded here
against the lower-cased title) with its event label.  Alternations and
`.*`/`,?` shapes are expanded per row. -/
def eventPatternRows : List (List (Str → Bool) × Str) :=
  [([containsSub (str (r"recession")), containsSub (str (r"2025"))],
    str (r"recession-2025")),
   ([containsSub (str (r"recession")), containsSub (str (r"2026"))],
    str (r"recession-2026")),
   ([fun t => containsSub (str (r"fed")) t || containsSub (str (r"federal reserve")) t,
     containsSub (str (r"rate")), containsSub (str (r"cut"))],
    str (r"fed-rate-cut")),
   ([fun t => containsSub (str (r"fed")) t || containsSub (str (r"federal reserve")) t,
     containsSub (str (r"rate")),
     fun t => containsSub (str (r"hike")) t || containsSub (str (r"raise")) t],
    str (r"fed-rate-hike")),
   ([fun t => containsSub (str (r"bitcoin")) t || containsSub (str (r"btc")) t,
     fun t => containsSeq (str (r"100")) (str (r"k")) t
       || containsSub (str (r"100000")) t || containsSub (str (r"100,000")) t],
    str (r"bitcoin-100k")),
   ([fun t => containsSub (str (r"bitcoin")) t || containsSub (str (r"btc")) t,
     fun t => containsSeq (str (r"150")) (str (r"k")) t
       || containsSub (str (r"150000")) t || containsSub (str (r"150,000")) t],
    str (r"bitcoin-150k")),
   ([fun t => containsSub (str (r"bitcoin")) t || containsSub (str (r"btc")) t,
     fun t => containsSeq (str (r"200")) (str (r"k")) t
       || containsSub (str (r"200000")) t || containsSub (str (r"200,000")) t],
    str (r"bitcoin-200k")),
   ([containsSub (str (r"trump")), containsSub (str (r"tariff")),
     containsSub (str (r"china"))],
    str (r"trump-tariffs-china")),
   ([containsSub (str (r"trump")), containsSub (str (r"deport")),
     containsSub (str (r"million"))],
    str (r"trump-deportation-million")),
   ([fun t => containsSub (str (r"doge")) t || containsSub (str (r"musk")) t,
     fun t => containsSeq (str (r"federal")) (str (r"employee")) t
       || containsSeq (str (r"employee")) (str (r"federal")) t],
    str (r"doge-employees")),
   ([containsSub (str (r"super bowl")), containsSub (str (r"chiefs"))],
    str (r"superbowl-chiefs")),
   ([containsSub (str (r"super bowl")), containsSub (str (r"eagles"))],
    str (r"superbowl-eagles")),
   ([containsSub (str (r"world cup")),
     fun t => containsSub (str (r"usa")) t || containsSub (str (r"united states")) t,
     containsSub (str (r"2026"))],
    str (r"worldcup-usa-2026")),
   ([fun t => containsSub (str (r"s&p")) t || containsSub (str (r"sp500")) t,
     containsSub (str (r"6000"))],
    str (r"sp500-6000")),
   ([fun t => containsSub (str (r"s&p")) t || containsSub (str (r"sp500")) t,
     containsSub (str (r"7000"))],
    str (r"sp500-7000"))]

/-- `extractEvents` (market-api.ts 638-649): labels of the rows all of
whose patterns match, in table order. -/
def extractEvents (title : Str) : List Str :=
  let t := toLowerStr title
  eventPatternRows.foldl
    (fun acc row => if row.1.all (fun p => p t) then acc ++ [row.2] else acc) []

/-- The venue enumeration of `StandardizedMarket.platform`. -/
inductive Platform where
  | Kalshi : Platform
  | Polymarket : Platform
  | PredictIt : Platform
deriving DecidableEq

/-- `StandardizedMarket` (market-api.ts 37-49), restricted to the
fields the matching-and-pricing core reads (`category`, `lastUpdated`,
`isBinary`, `outcomes` and `marketUrl` are carried for display only and
never read by `calculateSimilarity` or `findArbitrageOpportunities`). -/
structure StandardizedMarket where
  id : Str
  platform : Platform
  title : Str
  yesPrice : ℚ
  noPrice : ℚ
  volume : ℚ
deriving DecidableEq

/-- JS `Math.round` (round half toward positive infinity), used on the
non-negative score `jaccard * 100`. -/
def jsRound (q : ℚ) : ℕ := (Int.floor (q + 1 / 2)).toNat

/-- `Array.prototype.join(", ")`. -/
def joinComma : List Str → Str
  | [] => []
  | [x] => x
  | x :: rest => x ++ str (r", ") ++ joinComma rest

/-- `calculateSimilarity` (market-api.ts 652-755): shared event label
first (score 95), then the party/state/time-frame vetoes, then
Jaccard-gated scoring with year and number vetoes, name and time-frame
boosts, and the no-entity 60-point gate. -/
def calculateSimilarity (a b : StandardizedMarket) : ℕ × Str :=
  let eventsA := extractEvents a.title
  let eventsB := extractEvents b.title
  match eventsA.find? (fun ea => eventsB.contains ea) with
  | some ea => (95, ea)
  | none =>
    let entitiesA := extractEntities a.title
    let entitiesB := extractEntities b.title
    let partyVeto : Bool :=
      match entitiesA.party, entitiesB.party with
      | some pa, some pb => !(pa == pb)
      | _, _ => false
    if partyVeto then (0, str (r"")) else
    if !entitiesA.states.isEmpty && !entitiesB.states.isEmpty
        && !(entitiesA.states.any (fun s => entitiesB.states.contains s)) then
      (0, str (r""))
    else
    if !entitiesA.timeFrames.isEmpty && !entitiesB.timeFrames.isEmpty
        && !(entitiesA.timeFrames.any (fun t => entitiesB.timeFrames.contains t)) then
      (0, str (r""))
    else
    let tokensA := extractTokens a.title
    let tokensB := extractTokens b.title
    let jaccard := jaccardSimilarity tokensA tokensB
    if (1 / 4 : ℚ) ≤ jaccard then
      if !entitiesA.years.isEmpty && !entitiesB.years.isEmpty
          && !(entitiesA.years.any (fun y => entitiesB.years.contains y)) then
        (0, str (r""))
      else
      if !entitiesA.numbers.isEmpty && !entitiesB.numbers.isEmpty
          && !(entitiesA.numbers.any (fun n => entitiesB.numbers.contains n)) then
        (0, str (r""))
      else
        let nameOverlap := entitiesA.names.filter (fun n => entitiesB.names.contains n)
        let score0 := jsRound (jaccard * 100)
        let score1 :=
          if nameOverlap.length > 0 then min 100 (score0 + nameOverlap.length * 15)
          else score0
        let score2 :=
          if !entitiesA.timeFrames.isEmpty && !entitiesB.timeFrames.isEmpty
              && ((entitiesA.timeFrames.filter
                    (fun t => entitiesB.timeFrames.contains t)).length > 0) then
            min 100 (score1 + 10)
          else score1
        if nameOverlap.length = 0 ∧ score2 < 60 then (0, str (r""))
        else
          let commonTokens := (tokensA.filter (fun t => tokensB.contains t)).take 4
          let reason :=
            if nameOverlap.length > 0 then str (r"match: ") ++ joinComma nameOverlap
            else str (r"similar: ") ++ joinComma commonTokens
          (score2, reason)
    else (0, str (r""))

end MarketApi

/-! ### Opportunity discovery (`findArbitrageOpportunities`,
market-api.ts 757-897).  The JS `Map` keyword index is an
insertion-ordered association list; the `Set` of compared pair keys is
a list queried by membership; both sorts are stable (V8 sorts are),
modelled by `List.mergeSort`.  The `byPlatform` index built at lines
764-775 is dead code (never read) and is omitted. -/

namespace MarketApi

/-- `ArbitrageOpportunity` (market-api.ts 384-392). -/
structure ArbitrageOpportunity where
  marketA : StandardizedMarket
  marketB : StandardizedMarket
  combinedYesCost : ℚ
  potentialProfit : ℚ
  roi : ℚ
  matchScore : ℕ
  matchReason : Str
deriving DecidableEq

/-- The compound-key topic vocabulary (market-api.ts 781). -/
def topics : List Str :=
  [str (r"senate"), str (r"house"), str (r"president"), str (r"governor"),
   str (r"bitcoin"), str (r"btc"), str (r"ethereum"), str (r"recession"),
   str (r"fed"), str (r"super bowl"), str (r"nba"), str (r"nfl"),
   str (r"world cup"), str (r"olympics")]

/-- The tracked years of the compound keys (market-api.ts 783). -/
def indexYears : List Str :=
  [str (r"2025"), str (r"2026"), str (r"2027"), str (r"2028")]

/-- The entity bucket patterns (market-api.ts 785-795), word-boundary
regexes paired with their bucket names. -/
def entityPatterns : List (Str × (Str → Bool)) :=
  [(str (r"trump"), containsWord (str (r"trump"))),
   (str (r"biden"), containsWord (str (r"biden"))),
   (str (r"harris"), containsWord (str (r"harris"))),
   (str (r"desantis"), containsWord (str (r"desantis"))),
   (str (r"newsom"), containsWord (str (r"newsom"))),
   (str (r"musk"), containsWord (str (r"musk"))),
   (str (r"vance"), containsWord (str (r"vance"))),
   (str (r"buttigieg"), containsWord (str (r"buttigieg"))),
   (str (r"ocasio-cortez"), matchesOcasio)]

/-- Append a market to a key's bucket, creating the bucket at the end
on first use (JS `Map` insertion order). -/
def upsert (key : Str) (m : StandardizedMarket) :
    List (Str × List StandardizedMarket) → List (Str × List StandardizedMarket)
  | [] => [(key, [m])]
  | (k, ms) :: rest =>
    if k = key then (k, ms ++ [m]) :: rest else (k, ms) :: upsert key m rest

/-- Index one market: compound `topic-year` keys for every topic and
year contained in the lower-cased title, then entity keys
(market-api.ts 797-820). -/
def indexMarket (idx : List (Str × List StandardizedMarket))
    (m : StandardizedMarket) : List (Str × List StandardizedMarket) :=
  let title := toLowerStr m.title
  let idx1 := topics.foldl
    (fun acc topic =>
      if containsSub topic title then
        indexYears.foldl
          (fun acc2 year =>
            if containsSub year title then
              upsert (topic ++ str (r"-") ++ year) m acc2
            else acc2) acc
      else acc) idx
  entityPatterns.foldl
    (fun acc ep => if ep.2 title then upsert ep.1 m acc else acc) idx1

/-- The full keyword index of a listing snapshot. -/
def buildIndex (markets : List StandardizedMarket) :
    List (Str × List StandardizedMarket) :=
  markets.foldl indexMarket []

/-- A bucket survives when it holds markets from at least two venues
(`platforms.size < 2` skip, market-api.ts 828-829). -/
def multiPlatform : List StandardizedMarket → Bool
  | [] => false
  | m :: rest => rest.any (fun x => !(x.platform == m.platform))

/-- Sort a bucket by volume descending (stable) and cap it at the
`MAX_BUCKET_SIZE` of 500 (market-api.ts 831-834). -/
def bucketList (ms : List StandardizedMarket) : List StandardizedMarket :=
  (ms.mergeSort (fun a b => decide (b.volume ≤ a.volume))).take 500

/-- Lexicographic comparison of UTF-16 code units, as the default JS
array sort comparator orders strings. -/
def strLe : Str → Str → Bool
  | [], _ => true
  | _ :: _, [] => false
  | c :: cs, d :: ds => decide (c < d) || (decide (c = d) && strLe cs ds)

/-- The order-independent seen-pairs key
`[a.id, b.id].sort().join('-')` (market-api.ts 845). -/
def pairKey (a b : StandardizedMarket) : Str :=
  if strLe a.id b.id then a.id ++ str (r"-") ++ b.id
  else b.id ++ str (r"-") ++ a.id

/-- The traversal state of the pair loops: the seen-pairs key set, the
pairs handed to `calculateSimilarity` (in call order — this is the
observable record of scorer invocations), and the opportunities pushed
so far. -/
structure ScanState where
  compared : List Str
  scored : List (StandardizedMarket × StandardizedMarket)
  opps : List ArbitrageOpportunity
deriving DecidableEq

/-- The body of the inner pair loop (market-api.ts 836-889): skip same
venue, skip seen keys, otherwise record the key, score the pair, and
push up to two scenario opportunities gated by cost < 1 and the minimum
ROI. -/
def processPair (minRoi : ℚ) (st : ScanState) (a b : StandardizedMarket) :
    ScanState :=
  if a.platform = b.platform then st
  else
    let key := pairKey a b
    if key ∈ st.compared then st
    else
      let st1 : ScanState :=
        { st with compared := st.compared ++ [key], scored := st.scored ++ [(a, b)] }
      let sr := calculateSimilarity a b
      if sr.1 < 60 then st1
      else
        let costYesANoB := a.yesPrice + b.noPrice
        let st2 :=
          if costYesANoB < 1 then
            let profit := 1 - costYesANoB
            let roi := (profit / costYesANoB) * 100
            if minRoi ≤ roi then
              { st1 with opps := st1.opps ++
                [{ marketA := a, marketB := b, combinedYesCost := costYesANoB,
                   potentialProfit := profit, roi := roi,
                   matchScore := sr.1, matchReason := sr.2 }] }
            else st1
          else st1
        let costNoAYesB := a.noPrice + b.yesPrice
        if costNoAYesB < 1 then
          let profit := 1 - costNoAYesB
          let roi := (profit / costNoAYesB) * 100
          if minRoi ≤ roi then
            { st2 with opps := st2.opps ++
              [{ marketA := b, marketB := a, combinedYesCost := costNoAYesB,
                 potentialProfit := profit, roi := roi,
                 matchScore := sr.1, matchReason := sr.2 }] }
          else st2
        else st2

/-- The nested `i < j` pair loops over one bucket. -/
def pairsFold (minRoi : ℚ) (st : ScanState) :
    List StandardizedMarket → ScanState
  | [] => st
  | a :: rest =>
    pairsFold minRoi (rest.foldl (fun s b => processPair minRoi s a b) st) rest

/-- The loop over the buckets of the keyword index (market-api.ts
826-890): skip single-venue buckets, otherwise scan the sorted, capped
bucket. -/
def scanIndex (minRoi : ℚ) (st : ScanState) :
    List (Str × List StandardizedMarket) → ScanState
  | [] => st
  | (_, ms) :: rest =>
    scanIndex minRoi
      (if multiPlatform ms then pairsFold minRoi st (bucketList ms) else st) rest

/-- The traversal of a whole snapshot from the empty state. -/
def scanMarkets (markets : List StandardizedMarket) (minRoi : ℚ) : ScanState :=
  scanIndex minRoi { compared := [], scored := [], opps := [] }
    (buildIndex markets)

/-- The pairs handed to the similarity scorer during one invocation of
`findArbitrageOpportunities`, in call order. -/
def scoredPairs (markets : List StandardizedMarket) (minRoi : ℚ) :
    List (StandardizedMarket × StandardizedMarket) :=
  (scanMarkets markets minRoi).scored

/-- The final comparator (market-api.ts 893-896): ROI descending, and
match score descending within 0.1 ROI points; `oppLe a b` holds when
the comparator puts `a` no later than `b`. -/
def oppLe (a b : ArbitrageOpportunity) : Bool :=
  if (1 / 10 : ℚ) < |a.roi - b.roi| then decide (b.roi ≤ a.roi)
  else decide (b.matchScore ≤ a.matchScore)

/-- `findArbitrageOpportunities` (market-api.ts 757-897). -/
def findArbitrageOpportunities (markets : List StandardizedMarket)
    (minRoi : ℚ) : List ArbitrageOpportunity :=
  (scanMarkets markets minRoi).opps.mergeSort oppLe

end MarketApi

namespace MarketApi

/-- Everything provable of an opportunity the moment it is pushed by
the pair loop: cross-venue markets, a surviving match score of at least
60 that is the similarity score of the pair in one of the two
orientations, pre-fee cost below 1, ROI meeting the threshold, and the
internal price/profit/ROI equations in the emitted orientation. -/
def OppInvariant (minRoi : ℚ) (o : ArbitrageOpportunity) : Prop :=
  o.marketA.platform ≠ o.marketB.platform
    ∧ 60 ≤ o.matchScore
    ∧ o.combinedYesCost < 1
    ∧ minRoi ≤ o.roi
    ∧ o.combinedYesCost = o.marketA.yesPrice + o.marketB.noPrice
    ∧ o.potentialProfit = 1 - o.combinedYesCost
    ∧ o.roi = (o.potentialProfit / o.combinedYesCost) * 100
    ∧ ((calculateSimilarity o.marketA o.marketB).1 = o.matchScore
        ∨ (calculateSimilarity o.marketB o.marketA).1 = o.matchScore)

end MarketApi

namespace MarketApi

/-- The compared-keys and scored-pairs components of a `ScanState`,
which the pair loop updates independently of prices and scores. -/
abbrev GhostState := List Str × List (StandardizedMarket × StandardizedMarket)

/-- The effect of `processPair` on the compared/scored components: skip
same venue, skip seen keys, otherwise record the key and the pair.
(The similarity score and the ROI gates only affect `opps`.) -/
def pairStep (st : GhostState) (a b : StandardizedMarket) : GhostState :=
  if a.platform = b.platform then st
  else if pairKey a b ∈ st.1 then st
  else (st.1 ++ [pairKey a b], st.2 ++ [(a, b)])

/-- Compared/scored effect of `pairsFold`. -/
def ghostPairs (st : GhostState) : List StandardizedMarket → GhostState
  | [] => st
  | a :: rest => ghostPairs (rest.foldl (fun s b => pairStep s a b) st) rest

/-- Compared/scored effect of `scanIndex`. -/
def ghostIndex (st : GhostState) :
    List (Str × List StandardizedMarket) → GhostState
  | [] => st
  | (_, ms) :: rest =>
    ghostIndex (if multiPlatform ms then ghostPairs st (bucketList ms) else st) rest

/-- Compared/scored effect of a whole traversal. -/
def ghostScan (markets : List StandardizedMarket) : GhostState :=
  ghostIndex ([], []) (buildIndex markets)

/-- The loop invariant tying the seen-keys set to the scored pairs:
the keys are exactly the scored pairs' keys, each key was recorded at
most once, and scored pairs come from the snapshot. -/
def GhostInv (ms : List StandardizedMarket) (st : GhostState) : Prop :=
  (∀ k ∈ st.1, ∃ p ∈ st.2, pairKey p.1 p.2 = k)
    ∧ (∀ p ∈ st.2, pairKey p.1 p.2 ∈ st.1)
    ∧ (st.2.map fun p => pairKey p.1 p.2).Nodup
    ∧ (∀ p ∈ st.2, p.1 ∈ ms ∧ p.2 ∈ ms)

end MarketApi

namespace Examples

/-- Four listings whose ids contain hyphens so that two distinct
cross-venue pairs share the joined seen-pairs key `x-y-z`. -/
def ghost1 : MarketApi.StandardizedMarket :=
  { id := str (r"x-y"), platform := MarketApi.Platform.Kalshi,
    title := str (r"trump"), yesPrice := 0, noPrice := 0, volume := 0 }

/-- Second market of the hyphen-collision quadruple. -/
def ghost2 : MarketApi.StandardizedMarket :=
  { id := str (r"z"), platform := MarketApi.Platform.Polymarket,
    title := str (r"trump"), yesPrice := 0, noPrice := 0, volume := 0 }

/-- Third market of the hyphen-collision quadruple. -/
def ghost3 : MarketApi.StandardizedMarket :=
  { id := str (r"x"), platform := MarketApi.Platform.Kalshi,
    title := str (r"trump"), yesPrice := 0, noPrice := 0, volume := 0 }

/-- Fourth market of the hyphen-collision quadruple: the pair
`(ghost3, ghost4)` has key `x-y-z`, the same as `(ghost1, ghost2)`. -/
def ghost4 : MarketApi.StandardizedMarket :=
  { id := str (r"y-z"), platform := MarketApi.Platform.Polymarket,
    title := str (r"trump"), yesPrice := 0, noPrice := 0, volume := 0 }

/-- A hyphen-free variant of the quadruple, for the amended claim. -/
def plain1 : MarketApi.StandardizedMarket :=
  { id := str (r"a"), platform := MarketApi.Platform.Kalshi,
    title := str (r"trump"), yesPrice := 0, noPrice := 0, volume := 0 }

/-- Second hyphen-free market. -/
def plain2 : MarketApi.StandardizedMarket :=
  { id := str (r"b"), platform := MarketApi.Platform.Polymarket,
    title := str (r"trump"), yesPrice := 0, noPrice := 0, volume := 0 }

end Examples

/-! ### Concrete example listings used by witnesses and counterexamples -/

namespace Examples

/-- A Kalshi listing about Trump tariffs on China in 2025. -/
def tariff25 : MarketApi.StandardizedMarket :=
  { id := str (r"ka1"), platform := MarketApi.Platform.Kalshi,
    title := str (r"Will Trump raise tariffs on China in 2025"),
    yesPrice := 2 / 5, noPrice := 3 / 5, volume := 0 }

/-- A Polymarket listing identical except for the year token 2026. -/
def tariff26 : MarketApi.StandardizedMarket :=
  { id := str (r"pb1"), platform := MarketApi.Platform.Polymarket,
    title := str (r"Will Trump raise tariffs on China in 2026"),
    yesPrice := 1 / 2, noPrice := 1 / 2, volume := 0 }

/-- The single opportunity the aggregator emits for that pair. -/
def tariffOpp : MarketApi.ArbitrageOpportunity :=
  { marketA := tariff25, marketB := tariff26, combinedYesCost := 9 / 10,
    potentialProfit := 1 / 10, roi := 100 / 9, matchScore := 95,
    matchReason := str (r"trump-tariffs-china") }

/-- A Kalshi listing about a 2025 recession. -/
def recession25 : MarketApi.StandardizedMarket :=
  { id := str (r"kr1"), platform := MarketApi.Platform.Kalshi,
    title := str (r"Recession in 2025"),
    yesPrice := 1 / 2, noPrice := 1 / 2, volume := 0 }

/-- A Polymarket listing about a 2026 recession. -/
def recession26 : MarketApi.StandardizedMarket :=
  { id := str (r"pr1"), platform := MarketApi.Platform.Polymarket,
    title := str (r"Recession in 2026"),
    yesPrice := 1 / 2, noPrice := 1 / 2, volume := 0 }

end Examples

/-! ### Specification-side predicates for the party claim -/

/-- `p` occurs in `s` as a plain substring (declarative form). -/
def OccursSub (p s : Str) : Prop := ∃ u v, s = u ++ p ++ v

/-- `p` occurs in `s` followed by a word boundary (declarative form of
the `p\b` regex shapes). -/
def OccursWB (p s : Str) : Prop :=
  ∃ u v, s = u ++ p ++ v
    ∧ (v = [] ∨ ∃ c w, v = c :: w ∧ isWordChar c = false)

/-- The claim's reading of a republican-family term: `republican`,
`gop` or `rnc` in the title, or a bare word `r`. -/
def specRepublicanFamily (title : Str) : Bool :=
  let t := toLowerStr title
  containsSub (str (r"republican")) t || containsSub (str (r"gop")) t
    || containsSub (str (r"rnc")) t || containsWord (str (r"r")) t

/-- The regex `/republican|gop|rnc|r\b/i` as a declarative predicate on
the lower-cased title. -/
def RepublicanRegex (s : Str) : Prop :=
  OccursSub (str (r"republican")) s ∨ OccursSub (str (r"gop")) s
    ∨ OccursSub (str (r"rnc")) s ∨ OccursWB (str (r"r")) s

/-- The regex `/democrat|dnc|dem\b|d\b/i` as a declarative predicate on
the lower-cased title. -/
def DemocratRegex (s : Str) : Prop :=
  OccursSub (str (r"democrat")) s ∨ OccursSub (str (r"dnc")) s
    ∨ OccursWB (str (r"dem")) s ∨ OccursWB (str (r"d")) s

/-! ### Helper lemmas on the sentinel fee model -/

namespace Sentinel

/-- Evaluating the fee for a venue name that matches no branch. -/
theorem fee_of_unknown (platform : Str) (price contracts : ℚ) (mode : OrderMode)
    (h1 : toLowerStr platform ≠ str (r"kalshi"))
    (h2 : toLowerStr platform ≠ str (r"polymarket"))
    (h3 : toLowerStr platform ≠ str (r"predictit"))
    (h4 : toLowerStr platform ≠ str (r"ibkr"))
    (h5 : toLowerStr platform ≠ str (r"ibkr forecast")) :
    calculatePlatformFee platform price contracts mode = 0 := by
  rw [calculatePlatformFee]
  rw [if_neg h1, if_neg h2, if_neg h3, if_neg (not_or.2 ⟨h4, h5⟩)]

/-- The fee is zero at a contract count of zero. -/
theorem fee_at_zero (platform : Str) (price : ℚ) (mode : OrderMode) :
    calculatePlatformFee platform price 0 mode = 0 := by
  rw [calculatePlatformFee]
  split_ifs <;> ring

/-- The fee is non-negative for prices in `[0, 1]` and non-negative counts. -/
theorem fee_nonneg (platform : Str) (price contracts : ℚ) (mode : OrderMode)
    (hp0 : 0 ≤ price) (hp1 : price ≤ 1) (hc : 0 ≤ contracts) :
    0 ≤ calculatePlatformFee platform price contracts mode := by
  rw [calculatePlatformFee]
  split_ifs <;>
    nlinarith [mul_nonneg hp0 hc, mul_nonneg (sub_nonneg.2 hp1) hc,
      mul_nonneg (mul_nonneg hp0 (sub_nonneg.2 hp1)) hc]

/-- The fee is non-decreasing in the contract count (prices in `[0, 1]`). -/
theorem fee_mono (platform : Str) (price c d : ℚ) (mode : OrderMode)
    (hp0 : 0 ≤ price) (hp1 : price ≤ 1) (hcd : c ≤ d) :
    calculatePlatformFee platform price c mode
      ≤ calculatePlatformFee platform price d mode := by
  rw [calculatePlatformFee, calculatePlatformFee]
  split_ifs <;>
    nlinarith [mul_nonneg hp0 (sub_nonneg.2 hcd),
      mul_nonneg (sub_nonneg.2 hp1) (sub_nonneg.2 hcd),
      mul_nonneg (mul_nonneg hp0 (sub_nonneg.2 hp1)) (sub_nonneg.2 hcd)]

/-- The loop's total cost at count 0 is 0. -/
theorem loopCost_zero (platformA : Str) (priceA : ℚ) (platformB : Str)
    (priceB : ℚ) (mode : OrderMode) :
    loopCost platformA priceA platformB priceB mode 0 = 0 := by
  rw [loopCost]
  norm_num [fee_at_zero]

/-- The loop's total cost is non-decreasing in the contract count. -/
theorem loopCost_mono (platformA : Str) (priceA : ℚ) (platformB : Str)
    (priceB : ℚ) (mode : OrderMode) (m n : ℕ)
    (hA0 : 0 ≤ priceA) (hA1 : priceA ≤ 1) (hB0 : 0 ≤ priceB) (hB1 : priceB ≤ 1)
    (hmn : m ≤ n) :
    loopCost platformA priceA platformB priceB mode m
      ≤ loopCost platformA priceA platformB priceB mode n := by
  have hq : (m : ℚ) ≤ (n : ℚ) := by exact_mod_cast hmn
  have h1 := fee_mono platformA priceA (m : ℚ) (n : ℚ) mode hA0 hA1 hq
  have h2 := fee_mono platformB priceB (m : ℚ) (n : ℚ) mode hB0 hB1 hq
  rw [loopCost, loopCost]
  nlinarith [mul_nonneg (add_nonneg hA0 hB0) (sub_nonneg.2 hq)]

/-- The base cost alone bounds the loop cost from below. -/
theorem loopCost_ge_base (platformA : Str) (priceA : ℚ) (platformB : Str)
    (priceB : ℚ) (mode : OrderMode) (n : ℕ)
    (hA0 : 0 ≤ priceA) (hA1 : priceA ≤ 1) (hB0 : 0 ≤ priceB) (hB1 : priceB ≤ 1) :
    (priceA + priceB) * (n : ℚ)
      ≤ loopCost platformA priceA platformB priceB mode n := by
  have h1 := fee_nonneg platformA priceA (n : ℚ) mode hA0 hA1 (by positivity)
  have h2 := fee_nonneg platformB priceB (n : ℚ) mode hB0 hB1 (by positivity)
  rw [loopCost]
  linarith

/-- The loop's result is a feasible contract count. -/
theorem searchContracts_feasible (platformA : Str) (priceA : ℚ) (platformB : Str)
    (priceB : ℚ) (investment : ℚ) (mode : OrderMode) (start : ℕ)
    (hinv : 0 ≤ investment) :
    loopCost platformA priceA platformB priceB mode
      (searchContracts platformA priceA platformB priceB investment mode start)
      ≤ investment := by
  induction start with
  | zero =>
    rw [searchContracts, loopCost_zero]
    exact hinv
  | succ n ih =>
    rw [searchContracts]
    by_cases h : loopCost platformA priceA platformB priceB mode (n + 1) ≤ investment
    · rw [if_pos h]
      exact h
    · rw [if_neg h]
      exact ih

/-- Any feasible count below the starting point is at most the loop's result. -/
theorem searchContracts_maximal (platformA : Str) (priceA : ℚ) (platformB : Str)
    (priceB : ℚ) (investment : ℚ) (mode : OrderMode) (start m : ℕ)
    (hm : m ≤ start)
    (hfeas : loopCost platformA priceA platformB priceB mode m ≤ investment)
    (hA0 : 0 ≤ priceA) (hA1 : priceA ≤ 1) (hB0 : 0 ≤ priceB) (hB1 : priceB ≤ 1) :
    m ≤ searchContracts platformA priceA platformB priceB investment mode start := by
  induction start with
  | zero => simpa [searchContracts] using hm
  | succ n ih =>
    rw [searchContracts]
    by_cases h : loopCost platformA priceA platformB priceB mode (n + 1) ≤ investment
    · rw [if_pos h]
      exact hm
    · rw [if_neg h]
      rcases Nat.lt_or_ge m (n + 1) with hlt | hge
      · exact ih (Nat.lt_succ_iff.mp hlt)
      · exact absurd (le_trans (loopCost_mono platformA priceA platformB priceB
          mode (n + 1) m hA0 hA1 hB0 hB1 hge) hfeas) h

/-- A feasible count never exceeds the fee-naive starting point. -/
theorem feasible_le_start (platformA : Str) (priceA : ℚ) (platformB : Str)
    (priceB : ℚ) (investment : ℚ) (mode : OrderMode) (m : ℕ)
    (hA0 : 0 ≤ priceA) (hA1 : priceA ≤ 1) (hB0 : 0 ≤ priceB) (hB1 : priceB ≤ 1)
    (hpos : 0 < priceA + priceB)
    (hfeas : loopCost platformA priceA platformB priceB mode m ≤ investment) :
    m ≤ startContracts investment (priceA + priceB) := by
  have hbase : (priceA + priceB) * (m : ℚ) ≤ investment :=
    le_trans (loopCost_ge_base platformA priceA platformB priceB mode m
      hA0 hA1 hB0 hB1) hfeas
  have hdiv : (m : ℚ) ≤ investment / (priceA + priceB) :=
    (le_div_iff hpos).2 (by linarith [hbase])
  have hfl : (m : ℤ) ≤ Int.floor (investment / (priceA + priceB)) :=
    Int.le_floor.2 (by exact_mod_cast hdiv)
  have := Int.toNat_le_toNat hfl
  simpa [startContracts] using this

end Sentinel

/-- C2: for any pair of venues, prices in `[0, 1]` with
`0 < priceA + priceB < 1`, positive investment, and order type, the
count reached by the decrementing loop of `calculateScenarioRoi`
(started at the fee-naive bound `floor(investment / baseCost)`) is
feasible and is the greatest feasible integer contract count. -/
theorem C2_theorem (platformA platformB : Str) (priceA priceB investment : ℚ)
    (mode : OrderMode)
    (hA0 : 0 ≤ priceA) (hA1 : priceA ≤ 1) (hB0 : 0 ≤ priceB) (hB1 : priceB ≤ 1)
    (hpos : 0 < priceA + priceB) (hlt : priceA + priceB < 1)
    (hinv : 0 < investment) :
    Sentinel.loopCost platformA priceA platformB priceB mode
        (Sentinel.searchContracts platformA priceA platformB priceB investment mode
          (Sentinel.startContracts investment (priceA + priceB))) ≤ investment
      ∧ ∀ m : ℕ,
          Sentinel.loopCost platformA priceA platformB priceB mode m ≤ investment →
          m ≤ Sentinel.searchContracts platformA priceA platformB priceB
            investment mode (Sentinel.startContracts investment (priceA + priceB)) := by
  constructor
  · exact Sentinel.searchContracts_feasible platformA priceA platformB priceB
      investment mode _ (le_of_lt hinv)
  · intro m hm
    exact Sentinel.searchContracts_maximal platformA priceA platformB priceB
      investment mode _ m
      (Sentinel.feasible_le_start platformA priceA platformB priceB investment
        mode m hA0 hA1 hB0 hB1 hpos hm)
      hm hA0 hA1 hB0 hB1

/-- Witness for C2 at a concrete input (Kalshi vs Polymarket, prices
0.5 and 0.25, budget 100, Taker). -/
theorem C2_witness :
    ((0 : ℚ) ≤ 1 / 2 ∧ (0 : ℚ) < 1 / 2 + 1 / 4 ∧ (1 : ℚ) / 2 + 1 / 4 < 1
        ∧ (0 : ℚ) < 100)
      ∧ Sentinel.loopCost (str (r"kalshi")) (1 / 2) (str (r"polymarket")) (1 / 4)
          OrderMode.Taker
          (Sentinel.searchContracts (str (r"kalshi")) (1 / 2) (str (r"polymarket"))
            (1 / 4) 100 OrderMode.Taker
            (Sentinel.startContracts 100 (1 / 2 + 1 / 4))) ≤ 100 := by
  refine ⟨by norm_num, ?_⟩
  exact (C2_theorem (str (r"kalshi")) (str (r"polymarket")) (1 / 2) (1 / 4) 100
    OrderMode.Taker (by norm_num) (by norm_num) (by norm_num) (by norm_num)
    (by norm_num) (by norm_num) (by norm_num)).1

/-- C7: if the pre-fee scenario cost is at least 1, or the investment is
non-positive, `calculateScenarioRoi` returns 0. -/
theorem C7_theorem (platformA : Str) (priceA : ℚ) (platformB : Str)
    (priceB investment : ℚ) (mode : OrderMode)
    (h : 1 ≤ priceA + priceB ∨ investment ≤ 0) :
    Sentinel.calculateScenarioRoi platformA priceA platformB priceB
      investment mode = 0 := by
  rw [Sentinel.calculateScenarioRoi]
  rcases h with h | h
  · rw [if_pos h]
  · by_cases hb : 1 ≤ priceA + priceB
    · rw [if_pos hb]
    · rw [if_neg hb, if_pos h]

namespace Sentinel

/-- The fee is zero for the unrecognized venue name `sitex`, any input. -/
theorem fee_sitex (q c : ℚ) (m : OrderMode) :
    calculatePlatformFee (str (r"sitex")) q c m = 0 :=
  fee_of_unknown (str (r"sitex")) q c m (by decide) (by decide)
    (by decide) (by decide) (by decide)

/-- The fee is zero for the unrecognized venue name `sitey`, any input. -/
theorem fee_sitey (q c : ℚ) (m : OrderMode) :
    calculatePlatformFee (str (r"sitey")) q c m = 0 :=
  fee_of_unknown (str (r"sitey")) q c m (by decide) (by decide)
    (by decide) (by decide) (by decide)

/-- Loop cost of the 0.52/0.44 fee-free scenario is just `0.96 × n`. -/
theorem loopCost_sitexy (n : ℕ) :
    loopCost (str (r"sitex")) (13 / 25) (str (r"sitey")) (11 / 25)
      OrderMode.Taker n = (24 / 25 : ℚ) * (n : ℚ) := by
  rw [loopCost, fee_sitex, fee_sitey]
  ring

/-- `Math.floor(100 / 0.96) = 104`. -/
theorem startContracts_sitexy :
    startContracts 100 ((13 : ℚ) / 25 + 11 / 25) = 104 := by
  rw [startContracts]
  norm_num
  decide

/-- The loop accepts 104 contracts at once (104 × 0.96 = 99.84 ≤ 100). -/
theorem searchContracts_sitexy :
    searchContracts (str (r"sitex")) (13 / 25) (str (r"sitey"))
      (11 / 25) 100 OrderMode.Taker 104 = 104 := by
  rw [show (104 : ℕ) = 103 + 1 from rfl, searchContracts]
  rw [if_pos (by rw [loopCost_sitexy] ; push_cast ; norm_num)]

/-- The 0.52 / 0.44 fee-free scenario at budget 100 has ROI
(104 − 99.84) / 99.84 × 100 = 25/6 % ≈ 4.1667 %. -/
theorem scenarioRoi_sitexy :
    calculateScenarioRoi (str (r"sitex")) (13 / 25) (str (r"sitey"))
      (11 / 25) 100 OrderMode.Taker = 25 / 6 := by
  rw [calculateScenarioRoi]
  rw [if_neg (show ¬ ((1 : ℚ) ≤ 13 / 25 + 11 / 25) by norm_num)]
  rw [if_neg (show ¬ ((100 : ℚ) ≤ 0) by norm_num)]
  rw [startContracts_sitexy, searchContracts_sitexy]
  rw [if_neg (show ¬ (104 = 0) by norm_num)]
  rw [fee_sitex, fee_sitey]
  norm_num

end Sentinel

/-- C6 counterexample: at YES 0.52 / NO 0.44, budget 100, fee-free
venues, the code's ROI is 25/6 % ≈ 4.1667 % and its net profit is
104 − 99.84 = 4.16, not the 25/156 % ≈ 0.1603 % and 0.16 the claim
states (0.16 is the leftover budget 100 − 99.84, not the profit). -/
theorem C6_counterexample :
    Sentinel.calculateScenarioRoi (str (r"sitex")) (13 / 25) (str (r"sitey"))
        (11 / 25) 100 OrderMode.Taker = 25 / 6
      ∧ (25 / 6 : ℚ) ≠ 25 / 156
      ∧ (104 : ℚ) - Sentinel.loopCost (str (r"sitex")) (13 / 25)
          (str (r"sitey")) (11 / 25) OrderMode.Taker 104 = 104 / 25
      ∧ (104 / 25 : ℚ) ≠ 4 / 25 := by
  refine ⟨Sentinel.scenarioRoi_sitexy, by norm_num, ?_, by norm_num⟩
  rw [Sentinel.loopCost_sitexy]
  norm_num

/-- C6 (amended): with exact arithmetic, fee-free venues, YES price
0.52 on A and NO price 0.44 on B (YES 0.56), and budget 100: the
fee-naive bound and the loop both give 104 contracts, the total
invested is 99.84 = 2496/25, the net profit is 104 − 99.84 = 4.16, the
scenario ROI is 25/6 % ≈ 4.1667 % = 4.16/99.84×100, and
`calculateBestRoi` reports exactly that value for scenario 1. -/
theorem C6_theorem :
    Sentinel.startContracts 100 ((13 : ℚ) / 25 + 11 / 25) = 104
      ∧ Sentinel.searchContracts (str (r"sitex")) (13 / 25) (str (r"sitey"))
          (11 / 25) 100 OrderMode.Taker
          (Sentinel.startContracts 100 ((13 : ℚ) / 25 + 11 / 25)) = 104
      ∧ Sentinel.loopCost (str (r"sitex")) (13 / 25) (str (r"sitey")) (11 / 25)
          OrderMode.Taker 104 = 2496 / 25
      ∧ Sentinel.calculateScenarioRoi (str (r"sitex")) (13 / 25) (str (r"sitey"))
          (11 / 25) 100 OrderMode.Taker = 25 / 6
      ∧ Sentinel.calculateBestRoi (str (r"sitex")) (13 / 25) (str (r"sitey"))
          (14 / 25) 100 OrderMode.Taker
        = { roi := 25 / 6, scenario := 1, feeA := 0, feeB := 0 } := by
  refine ⟨Sentinel.startContracts_sitexy,
    by rw [Sentinel.startContracts_sitexy] ; exact Sentinel.searchContracts_sitexy,
    by rw [Sentinel.loopCost_sitexy] ; norm_num,
    Sentinel.scenarioRoi_sitexy, ?_⟩
  have hroi2 :
      Sentinel.calculateScenarioRoi (str (r"sitex")) (1 - 13 / 25) (str (r"sitey"))
        (14 / 25) 100 OrderMode.Taker = 0 := by
    rw [Sentinel.calculateScenarioRoi]
    rw [if_pos (show (1 : ℚ) ≤ 1 - 13 / 25 + 14 / 25 by norm_num)]
  have hroi1 :
      Sentinel.calculateScenarioRoi (str (r"sitex")) (13 / 25) (str (r"sitey"))
        (1 - 14 / 25) 100 OrderMode.Taker = 25 / 6 := by
    rw [show (1 : ℚ) - 14 / 25 = 11 / 25 by norm_num]
    exact Sentinel.scenarioRoi_sitexy
  rw [Sentinel.calculateBestRoi, hroi1, hroi2]
  rw [if_pos (show (0 : ℚ) ≤ 25 / 6 by norm_num)]
  norm_num
  exact ⟨Sentinel.fee_sitex _ _ _, Sentinel.fee_sitey _ _ _⟩

/-- Witness for C7: a scenario costing 1.2 per pair yields ROI 0. -/
theorem C7_witness :
    (1 : ℚ) ≤ 3 / 5 + 3 / 5
      ∧ Sentinel.calculateScenarioRoi (str (r"kalshi")) (3 / 5)
          (str (r"polymarket")) (3 / 5) 50 OrderMode.Taker = 0 :=
  ⟨by norm_num,
    C7_theorem (str (r"kalshi")) (3 / 5) (str (r"polymarket")) (3 / 5) 50
      OrderMode.Taker (Or.inl (by norm_num))⟩

/-! ### Branch evaluation lemmas for the two fee models -/

namespace Sentinel

/-- Sentinel Kalshi fee, Taker: the sliding-scale formula. -/
theorem fee_kalshi_taker (p c : ℚ) :
    calculatePlatformFee (str (r"kalshi")) p c OrderMode.Taker
      = (7 / 100) * p * (1 - p) * c := by
  rw [calculatePlatformFee]
  rw [if_pos (show toLowerStr (str (r"kalshi")) = str (r"kalshi") by decide)]
  rw [if_neg (show ¬ OrderMode.Taker = OrderMode.Maker by decide)]

/-- Sentinel Kalshi fee, Maker: zero. -/
theorem fee_kalshi_maker (p c : ℚ) :
    calculatePlatformFee (str (r"kalshi")) p c OrderMode.Maker = 0 := by
  rw [calculatePlatformFee]
  rw [if_pos (show toLowerStr (str (r"kalshi")) = str (r"kalshi") by decide)]
  rw [if_pos rfl]

/-- Sentinel Polymarket fee: 0.01 % of trade value, either mode. -/
theorem fee_polymarket (p c : ℚ) (m : OrderMode) :
    calculatePlatformFee (str (r"polymarket")) p c m = (p * c) * (1 / 10000) := by
  rw [calculatePlatformFee]
  rw [if_neg (show ¬ toLowerStr (str (r"polymarket")) = str (r"kalshi") by decide)]
  rw [if_pos (show toLowerStr (str (r"polymarket")) = str (r"polymarket") by decide)]

/-- Sentinel PredictIt fee: 10 % of per-contract profit, either mode. -/
theorem fee_predictit (p c : ℚ) (m : OrderMode) :
    calculatePlatformFee (str (r"predictit")) p c m = (1 - p) * c * (1 / 10) := by
  rw [calculatePlatformFee]
  rw [if_neg (show ¬ toLowerStr (str (r"predictit")) = str (r"kalshi") by decide)]
  rw [if_neg (show ¬ toLowerStr (str (r"predictit")) = str (r"polymarket") by decide)]
  rw [if_pos (show toLowerStr (str (r"predictit")) = str (r"predictit") by decide)]

/-- Sentinel IBKR fee: one cent per contract, either mode. -/
theorem fee_ibkr (p c : ℚ) (m : OrderMode) :
    calculatePlatformFee (str (r"ibkr")) p c m = c * (1 / 100) := by
  rw [calculatePlatformFee]
  rw [if_neg (show ¬ toLowerStr (str (r"ibkr")) = str (r"kalshi") by decide)]
  rw [if_neg (show ¬ toLowerStr (str (r"ibkr")) = str (r"polymarket") by decide)]
  rw [if_neg (show ¬ toLowerStr (str (r"ibkr")) = str (r"predictit") by decide)]
  rw [if_pos (Or.inl (show toLowerStr (str (r"ibkr")) = str (r"ibkr") by decide))]

end Sentinel

namespace Calculator

/-- Calculator Kalshi fee, Taker: the sliding-scale formula. -/
theorem calcFee_kalshi_taker (p c : ℚ) :
    calculatePlatformFee (str (r"kalshi")) p c OrderMode.Taker
      = (7 / 100) * p * (1 - p) * c := by
  rw [calculatePlatformFee]
  rw [if_pos (show toLowerStr (str (r"kalshi")) = str (r"kalshi") by decide)]
  rw [if_neg (show ¬ OrderMode.Taker = OrderMode.Maker by decide)]

/-- Calculator Kalshi fee, Maker: zero. -/
theorem calcFee_kalshi_maker (p c : ℚ) :
    calculatePlatformFee (str (r"kalshi")) p c OrderMode.Maker = 0 := by
  rw [calculatePlatformFee]
  rw [if_pos (show toLowerStr (str (r"kalshi")) = str (r"kalshi") by decide)]
  rw [if_pos rfl]

/-- Calculator Polymarket fee: zero, either mode. -/
theorem calcFee_polymarket (p c : ℚ) (m : OrderMode) :
    calculatePlatformFee (str (r"polymarket")) p c m = 0 := by
  rw [calculatePlatformFee]
  rw [if_neg (show ¬ toLowerStr (str (r"polymarket")) = str (r"kalshi") by decide)]
  rw [if_pos (show toLowerStr (str (r"polymarket")) = str (r"polymarket") by decide)]

/-- Calculator PredictIt fee: 10 % of per-contract profit, either mode. -/
theorem calcFee_predictit (p c : ℚ) (m : OrderMode) :
    calculatePlatformFee (str (r"predictit")) p c m = (1 - p) * c * (1 / 10) := by
  rw [calculatePlatformFee]
  rw [if_neg (show ¬ toLowerStr (str (r"predictit")) = str (r"kalshi") by decide)]
  rw [if_neg (show ¬ toLowerStr (str (r"predictit")) = str (r"polymarket") by decide)]
  rw [if_pos (show toLowerStr (str (r"predictit")) = str (r"predictit") by decide)]

/-- Calculator IBKR fee (exact name `ibkr`): one cent per contract. -/
theorem calcFee_ibkr (p c : ℚ) (m : OrderMode) :
    calculatePlatformFee (str (r"ibkr")) p c m = (1 / 100) * c := by
  rw [calculatePlatformFee]
  rw [if_neg (show ¬ toLowerStr (str (r"ibkr")) = str (r"kalshi") by decide)]
  rw [if_neg (show ¬ toLowerStr (str (r"ibkr")) = str (r"polymarket") by decide)]
  rw [if_neg (show ¬ toLowerStr (str (r"ibkr")) = str (r"predictit") by decide)]
  rw [if_pos (Or.inl (show containsSub (str (r"ibkr"))
    (toLowerStr (str (r"ibkr"))) = true by decide))]

/-- Calculator fee for a name matching no branch. -/
theorem calcFee_of_unknown (platform : Str) (price contracts : ℚ) (mode : OrderMode)
    (h1 : toLowerStr platform ≠ str (r"kalshi"))
    (h2 : toLowerStr platform ≠ str (r"polymarket"))
    (h3 : toLowerStr platform ≠ str (r"predictit"))
    (h4 : containsSub (str (r"ibkr")) (toLowerStr platform) ≠ true)
    (h5 : containsSub (str (r"forecastex")) (toLowerStr platform) ≠ true) :
    calculatePlatformFee platform price contracts mode = 0 := by
  rw [calculatePlatformFee]
  rw [if_neg h1, if_neg h2, if_neg h3, if_neg (not_or.2 ⟨h4, h5⟩)]

end Calculator

/-- C3 counterexample: at venue `polymarket`, price 0.5, 10 contracts,
Taker, the sentinel fee model charges 1/2000 = 0.0005 while the
calculator fee model charges 0, so the two implementations disagree and
the sentinel one does not implement a zero Polymarket fee. -/
theorem C3_counterexample :
    Sentinel.calculatePlatformFee (str (r"polymarket")) (1 / 2) 10
        OrderMode.Taker = 1 / 2000
      ∧ Calculator.calculatePlatformFee (str (r"polymarket")) (1 / 2) 10
          OrderMode.Taker = 0
      ∧ (1 / 2000 : ℚ) ≠ 0 := by
  refine ⟨?_, ?_, by norm_num⟩
  · rw [Sentinel.fee_polymarket]
    norm_num
  · rw [Calculator.calcFee_polymarket]

/-- C3 (amended): the two fee models agree on Kalshi, PredictIt, the
exact name `ibkr` and names matching no branch, and there implement the
per-venue rules (sliding scale on Kalshi Taker only, 10 % of profit on
PredictIt either mode, one cent per contract on IBKR, zero on unknown
names); but they differ on Polymarket (sentinel charges
`0.0001 × price × count`, calculator charges 0) and on which extended
IBKR names they recognize. -/
theorem C3_theorem (price contracts : ℚ) (mode : OrderMode) (platform : Str) :
    (Sentinel.calculatePlatformFee (str (r"kalshi")) price contracts mode
        = Calculator.calculatePlatformFee (str (r"kalshi")) price contracts mode
      ∧ Sentinel.calculatePlatformFee (str (r"kalshi")) price contracts
          OrderMode.Taker = (7 / 100) * price * (1 - price) * contracts
      ∧ Sentinel.calculatePlatformFee (str (r"kalshi")) price contracts
          OrderMode.Maker = 0)
    ∧ (Sentinel.calculatePlatformFee (str (r"predictit")) price contracts mode
        = Calculator.calculatePlatformFee (str (r"predictit")) price contracts mode
      ∧ Sentinel.calculatePlatformFee (str (r"predictit")) price contracts mode
          = (1 - price) * contracts * (1 / 10))
    ∧ (Sentinel.calculatePlatformFee (str (r"ibkr")) price contracts mode
        = Calculator.calculatePlatformFee (str (r"ibkr")) price contracts mode
      ∧ Sentinel.calculatePlatformFee (str (r"ibkr")) price contracts mode
          = contracts * (1 / 100))
    ∧ (Sentinel.calculatePlatformFee (str (r"polymarket")) price contracts mode
        = (price * contracts) * (1 / 10000)
      ∧ Calculator.calculatePlatformFee (str (r"polymarket")) price contracts
          mode = 0)
    ∧ (toLowerStr platform ≠ str (r"kalshi") →
        toLowerStr platform ≠ str (r"polymarket") →
        toLowerStr platform ≠ str (r"predictit") →
        toLowerStr platform ≠ str (r"ibkr") →
        toLowerStr platform ≠ str (r"ibkr forecast") →
        containsSub (str (r"ibkr")) (toLowerStr platform) ≠ true →
        containsSub (str (r"forecastex")) (toLowerStr platform) ≠ true →
        Sentinel.calculatePlatformFee platform price contracts mode = 0
          ∧ Calculator.calculatePlatformFee platform price contracts mode = 0) := by
  refine ⟨⟨?_, Sentinel.fee_kalshi_taker price contracts,
      Sentinel.fee_kalshi_maker price contracts⟩,
    ⟨?_, Sentinel.fee_predictit price contracts mode⟩,
    ⟨?_, Sentinel.fee_ibkr price contracts mode⟩,
    ⟨Sentinel.fee_polymarket price contracts mode,
      Calculator.calcFee_polymarket price contracts mode⟩,
    fun h1 h2 h3 h4 h5 h6 h7 =>
      ⟨Sentinel.fee_of_unknown platform price contracts mode h1 h2 h3 h4 h5,
        Calculator.calcFee_of_unknown platform price contracts mode h1 h2 h3 h6 h7⟩⟩
  · cases mode
    · rw [Sentinel.fee_kalshi_maker, Calculator.calcFee_kalshi_maker]
    · rw [Sentinel.fee_kalshi_taker, Calculator.calcFee_kalshi_taker]
  · rw [Sentinel.fee_predictit, Calculator.calcFee_predictit]
  · rw [Sentinel.fee_ibkr, Calculator.calcFee_ibkr]
    ring

/-- Witness for C3's unknown-venue clause at the concrete name `zebra`. -/
theorem C3_witness :
    Sentinel.calculatePlatformFee (str (r"zebra")) (1 / 3) 7 OrderMode.Taker = 0
      ∧ Calculator.calculatePlatformFee (str (r"zebra")) (1 / 3) 7
          OrderMode.Taker = 0 :=
  (C3_theorem (1 / 3) 7 OrderMode.Taker (str (r"zebra"))).2.2.2.2
    (by decide) (by decide) (by decide) (by decide) (by decide)
    (by decide) (by decide)

/-- C4 counterexample: the Maker-mode fee is not zero for every
supported venue: PredictIt at price 0.5 with 10 contracts and Maker
mode is charged 0.5 in both fee models. -/
theorem C4_counterexample :
    Sentinel.calculatePlatformFee (str (r"predictit")) (1 / 2) 10
        OrderMode.Maker = 1 / 2
      ∧ Calculator.calculatePlatformFee (str (r"predictit")) (1 / 2) 10
          OrderMode.Maker = 1 / 2
      ∧ (1 / 2 : ℚ) ≠ 0 := by
  refine ⟨?_, ?_, by norm_num⟩
  · rw [Sentinel.fee_predictit]
    norm_num
  · rw [Calculator.calcFee_predictit]
    norm_num

/-- For a Kalshi/Kalshi pair under Maker mode the contract-count loop
coincides with the zero-fee loop. -/
theorem searchContracts_kalshi_maker_eq_gross (pA pB inv : ℚ) (n : ℕ) :
    Sentinel.searchContracts (str (r"kalshi")) pA (str (r"kalshi")) pB inv
      OrderMode.Maker n = grossSearchContracts pA pB inv n := by
  induction n with
  | zero => rw [Sentinel.searchContracts, grossSearchContracts]
  | succ m ih =>
    have hc : Sentinel.loopCost (str (r"kalshi")) pA (str (r"kalshi")) pB
        OrderMode.Maker (m + 1) = (pA + pB) * ((m + 1 : ℕ) : ℚ) := by
      rw [Sentinel.loopCost, Sentinel.fee_kalshi_maker, Sentinel.fee_kalshi_maker]
      ring
    rw [Sentinel.searchContracts, grossSearchContracts, hc, ih]

/-- C4 (amended): Maker mode zeroes only the Kalshi sliding-scale fee
(and, in the calculator model, Polymarket is always free); fees on
PredictIt and IBKR are mode-independent, so Maker is not a universal
zero-fee mode.  For a pair of venues whose Maker fee does vanish — here
Kalshi against Kalshi — `calculateScenarioRoi` under Maker equals the
same computation with both fees identically zero. -/
theorem C4_theorem (p c pA pB inv : ℚ) :
    Sentinel.calculatePlatformFee (str (r"kalshi")) p c OrderMode.Maker = 0
      ∧ Calculator.calculatePlatformFee (str (r"kalshi")) p c OrderMode.Maker = 0
      ∧ Calculator.calculatePlatformFee (str (r"polymarket")) p c
          OrderMode.Maker = 0
      ∧ Sentinel.calculateScenarioRoi (str (r"kalshi")) pA (str (r"kalshi")) pB
          inv OrderMode.Maker = grossScenarioRoi pA pB inv := by
  refine ⟨Sentinel.fee_kalshi_maker p c, Calculator.calcFee_kalshi_maker p c,
    Calculator.calcFee_polymarket p c OrderMode.Maker, ?_⟩
  rw [Sentinel.calculateScenarioRoi, grossScenarioRoi]
  by_cases h1 : (1 : ℚ) ≤ pA + pB
  · rw [if_pos h1, if_pos h1]
  · rw [if_neg h1, if_neg h1]
    by_cases h2 : inv ≤ 0
    · rw [if_pos h2, if_pos h2]
    · rw [if_neg h2, if_neg h2]
      rw [searchContracts_kalshi_maker_eq_gross]
      by_cases h3 : grossSearchContracts pA pB inv
          (Sentinel.startContracts inv (pA + pB)) = 0
      · rw [if_pos h3, if_pos h3]
      · rw [if_neg h3, if_neg h3]
        rw [Sentinel.fee_kalshi_maker, Sentinel.fee_kalshi_maker]
        ring_nf

/-! ### Matcher correspondence lemmas -/

/-- `prefixAt` agrees with the declarative prefix property. -/
theorem prefixAt_iff (p s : Str) : prefixAt p s = true ↔ ∃ v, s = p ++ v := by
  induction p generalizing s with
  | nil => simp [prefixAt]
  | cons c p ih =>
    cases s with
    | nil => simp [prefixAt]
    | cons d s =>
      rw [prefixAt]
      simp only [Bool.and_eq_true, decide_eq_true_eq, List.cons_append,
        List.cons.injEq, ih]
      constructor
      · rintro ⟨rfl, v, rfl⟩
        exact ⟨v, rfl, rfl⟩
      · rintro ⟨v, rfl, rfl⟩
        exact ⟨rfl, v, rfl⟩

/-- `containsSub` agrees with substring occurrence. -/
theorem containsSub_iff (p s : Str) : containsSub p s = true ↔ OccursSub p s := by
  induction s with
  | nil =>
    rw [containsSub, OccursSub]
    simp only [List.isEmpty_iff]
    constructor
    · rintro rfl
      exact ⟨[], [], rfl⟩
    · rintro ⟨u, v, h⟩
      rcases List.append_eq_nil.1 h.symm with ⟨h1, h2⟩
      exact (List.append_eq_nil.1 h1).2
  | cons d s ih =>
    rw [containsSub]
    simp only [Bool.or_eq_true, ih, prefixAt_iff, OccursSub]
    constructor
    · rintro (⟨v, hv⟩ | ⟨u, v, huv⟩)
      · exact ⟨[], v, by simpa using hv⟩
      · exact ⟨d :: u, v, by simp [huv]⟩
    · rintro ⟨u, v, huv⟩
      cases u with
      | nil => exact Or.inl ⟨v, by simpa using huv⟩
      | cons x u =>
        rcases List.cons.injEq .. ▸ huv with ⟨rfl, hrest⟩
        exact Or.inr ⟨u, v, by simpa using huv⟩

/-- `wbAfter` agrees with the declarative boundary condition. -/
theorem wbAfter_iff (v : Str) :
    wbAfter v = true ↔ (v = [] ∨ ∃ c w, v = c :: w ∧ isWordChar c = false) := by
  cases v with
  | nil => simp [wbAfter]
  | cons c w =>
    rw [wbAfter]
    simp [Bool.not_eq_true']

/-- `containsSubWB` agrees with boundary-terminated occurrence. -/
theorem containsSubWB_iff (p s : Str) :
    containsSubWB p s = true ↔ OccursWB p s := by
  induction s with
  | nil =>
    rw [containsSubWB, OccursWB, prefixWB]
    simp only [Bool.and_eq_true, prefixAt_iff, wbAfter_iff]
    constructor
    · rintro ⟨⟨v, hv⟩, hb⟩
      rcases List.append_eq_nil.1 hv.symm with ⟨rfl, rfl⟩
      exact ⟨[], [], by simp, Or.inl rfl⟩
    · rintro ⟨u, v, h, hb⟩
      rcases List.append_eq_nil.1 h.symm with ⟨h1, rfl⟩
      rcases List.append_eq_nil.1 h1 with ⟨rfl, rfl⟩
      exact ⟨⟨[], rfl⟩, Or.inl rfl⟩
  | cons d s ih =>
    rw [containsSubWB]
    simp only [Bool.or_eq_true, ih]
    constructor
    · rintro (h | h)
      · rw [prefixWB, Bool.and_eq_true, prefixAt_iff] at h
        rcases h with ⟨⟨v, hv⟩, hb⟩
        rw [hv, List.drop_left] at hb
        exact ⟨[], v, by simpa using hv, (wbAfter_iff v).1 hb⟩
      · rcases h with ⟨u, v, huv, hb⟩
        exact ⟨d :: u, v, by simp [huv], hb⟩
    · rintro ⟨u, v, huv, hb⟩
      cases u with
      | nil =>
        refine Or.inl ?_
        rw [prefixWB, Bool.and_eq_true, prefixAt_iff]
        have hv : d :: s = p ++ v := by simpa using huv
        refine ⟨⟨v, hv⟩, ?_⟩
        rw [hv, List.drop_left]
        exact (wbAfter_iff v).2 hb
      | cons x u =>
        refine Or.inr ⟨u, v, ?_, hb⟩
        have := huv
        simp only [List.cons_append, List.cons.injEq] at this
        exact this.2

/-- The republican branch condition of `partyOf` matches its regex. -/
theorem republican_cond_iff (t : Str) :
    (containsSub (str (r"republican")) t || containsSub (str (r"gop")) t
      || containsSub (str (r"rnc")) t || containsSubWB (str (r"r")) t) = true
      ↔ RepublicanRegex t := by
  simp only [Bool.or_eq_true, containsSub_iff, containsSubWB_iff,
    RepublicanRegex, or_assoc]

/-- The democrat branch condition of `partyOf` matches its regex. -/
theorem democrat_cond_iff (t : Str) :
    (containsSub (str (r"democrat")) t || containsSub (str (r"dnc")) t
      || containsSubWB (str (r"dem")) t || containsSubWB (str (r"d")) t) = true
      ↔ DemocratRegex t := by
  simp only [Bool.or_eq_true, containsSub_iff, containsSubWB_iff,
    DemocratRegex, or_assoc]

/-- C8 counterexample: the title `four` contains no republican-family
term in the claim's sense (no `republican`, `gop` or `rnc`, no bare
word `r`), yet `extractEntities` tags it republican, because `r\b`
matches the final `r` of `four`. -/
theorem C8_counterexample :
    specRepublicanFamily (str (r"four")) = false
      ∧ (MarketApi.extractEntities (str (r"four"))).party
        = some (str (r"republican")) := by
  constructor
  · decide
  · decide

/-- C8 (amended): the party tag is `republican` exactly when the
lower-cased title matches `/republican|gop|rnc|r\b/` (substrings plus
any `r` at a word end — not only a bare word `r`); `democrat` exactly
when it does not match that and matches `/democrat|dnc|dem\b|d\b/`; and
null exactly when it matches neither. -/
theorem C8_theorem (title : Str) :
    ((MarketApi.extractEntities title).party = some (str (r"republican"))
        ↔ RepublicanRegex (toLowerStr title))
      ∧ ((MarketApi.extractEntities title).party = some (str (r"democrat"))
        ↔ (¬ RepublicanRegex (toLowerStr title)
            ∧ DemocratRegex (toLowerStr title)))
      ∧ ((MarketApi.extractEntities title).party = none
        ↔ (¬ RepublicanRegex (toLowerStr title)
            ∧ ¬ DemocratRegex (toLowerStr title))) := by
  have hparty : (MarketApi.extractEntities title).party
      = MarketApi.partyOf (toLowerStr title) := rfl
  rw [hparty, MarketApi.partyOf]
  by_cases hrep : (containsSub (str (r"republican")) (toLowerStr title)
      || containsSub (str (r"gop")) (toLowerStr title)
      || containsSub (str (r"rnc")) (toLowerStr title)
      || containsSubWB (str (r"r")) (toLowerStr title)) = true
  · rw [if_pos hrep]
    have h1 := (republican_cond_iff (toLowerStr title)).1 hrep
    refine ⟨by simp [h1, str], ?_, ?_⟩
    · simp only [Option.some.injEq]
      constructor
      · intro h
        exact absurd (congrArg (fun l => l.length) h) (by decide)
      · intro h
        exact absurd h1 h.1
    · simp only [reduceCtorEq, false_iff, not_and, not_not]
      intro h
      exact absurd h1 h
  · rw [if_neg hrep]
    have h1 : ¬ RepublicanRegex (toLowerStr title) := fun h =>
      hrep ((republican_cond_iff (toLowerStr title)).2 h)
    by_cases hdem : (containsSub (str (r"democrat")) (toLowerStr title)
        || containsSub (str (r"dnc")) (toLowerStr title)
        || containsSubWB (str (r"dem")) (toLowerStr title)
        || containsSubWB (str (r"d")) (toLowerStr title)) = true
    · rw [if_pos hdem]
      have h2 := (democrat_cond_iff (toLowerStr title)).1 hdem
      refine ⟨?_, by simp [h1, h2, str], ?_⟩
      · simp only [Option.some.injEq]
        constructor
        · intro h
          exact absurd (congrArg (fun l => l.length) h) (by decide)
        · intro h
          exact absurd h h1
      · simp only [reduceCtorEq, false_iff, not_and]
        intro _
        exact fun h => h h2
    · rw [if_neg hdem]
      have h2 : ¬ DemocratRegex (toLowerStr title) := fun h =>
        hdem ((democrat_cond_iff (toLowerStr title)).2 h)
      refine ⟨by simp [h1, str], by simp [h1, h2, str], by simp [h1, h2]⟩

/-! ### The pair-loop invariant -/

namespace MarketApi

/-- Every opportunity present after one `processPair` step was either
already there or satisfies the push-time invariant. -/
theorem processPair_opps (minRoi : ℚ) (st : ScanState)
    (a b : StandardizedMarket) :
    ∀ o ∈ (processPair minRoi st a b).opps,
      o ∈ st.opps ∨ OppInvariant minRoi o := by
  intro o ho
  rw [processPair] at ho
  by_cases h1 : a.platform = b.platform
  · rw [if_pos h1] at ho
    exact Or.inl ho
  · rw [if_neg h1] at ho
    by_cases h2 : pairKey a b ∈ st.compared
    · rw [if_pos h2] at ho
      exact Or.inl ho
    · rw [if_neg h2] at ho
      by_cases h3 : (calculateSimilarity a b).1 < 60
      · rw [if_pos h3] at ho
        exact Or.inl ho
      · rw [if_neg h3] at ho
        push_neg at h3
        simp only [] at ho
        by_cases h4 : a.yesPrice + b.noPrice < 1
        · rw [if_pos h4] at ho
          by_cases h5 : minRoi ≤ (1 - (a.yesPrice + b.noPrice))
              / (a.yesPrice + b.noPrice) * 100
          · rw [if_pos h5] at ho
            by_cases h6 : a.noPrice + b.yesPrice < 1
            · rw [if_pos h6] at ho
              by_cases h7 : minRoi ≤ (1 - (a.noPrice + b.yesPrice))
                  / (a.noPrice + b.yesPrice) * 100
              · rw [if_pos h7] at ho
                simp only [List.mem_append, List.mem_singleton] at ho
                rcases ho with (ho | rfl) | rfl
                · exact Or.inl ho
                · exact Or.inr ⟨h1, h3, h4, h5, rfl, rfl, rfl, Or.inl rfl⟩
                · exact Or.inr ⟨fun h => h1 h.symm, h3, h6, h7, add_comm _ _, rfl, rfl,
                    Or.inr rfl⟩
              · rw [if_neg h7] at ho
                simp only [List.mem_append, List.mem_singleton] at ho
                rcases ho with ho | rfl
                · exact Or.inl ho
                · exact Or.inr ⟨h1, h3, h4, h5, rfl, rfl, rfl, Or.inl rfl⟩
            · rw [if_neg h6] at ho
              simp only [List.mem_append, List.mem_singleton] at ho
              rcases ho with ho | rfl
              · exact Or.inl ho
              · exact Or.inr ⟨h1, h3, h4, h5, rfl, rfl, rfl, Or.inl rfl⟩
          · rw [if_neg h5] at ho
            by_cases h6 : a.noPrice + b.yesPrice < 1
            · rw [if_pos h6] at ho
              by_cases h7 : minRoi ≤ (1 - (a.noPrice + b.yesPrice))
                  / (a.noPrice + b.yesPrice) * 100
              · rw [if_pos h7] at ho
                simp only [List.mem_append, List.mem_singleton] at ho
                rcases ho with ho | rfl
                · exact Or.inl ho
                · exact Or.inr ⟨fun h => h1 h.symm, h3, h6, h7, add_comm _ _, rfl, rfl,
                    Or.inr rfl⟩
              · rw [if_neg h7] at ho
                exact Or.inl ho
            · rw [if_neg h6] at ho
              exact Or.inl ho
        · rw [if_neg h4] at ho
          by_cases h6 : a.noPrice + b.yesPrice < 1
          · rw [if_pos h6] at ho
            by_cases h7 : minRoi ≤ (1 - (a.noPrice + b.yesPrice))
                / (a.noPrice + b.yesPrice) * 100
            · rw [if_pos h7] at ho
              simp only [List.mem_append, List.mem_singleton] at ho
              rcases ho with ho | rfl
              · exact Or.inl ho
              · exact Or.inr ⟨fun h => h1 h.symm, h3, h6, h7, add_comm _ _, rfl, rfl,
                  Or.inr rfl⟩
            · rw [if_neg h7] at ho
              exact Or.inl ho
          · rw [if_neg h6] at ho
            exact Or.inl ho

/-- Lift of `processPair_opps` through the inner `j` loop. -/
theorem foldl_processPair_opps (minRoi : ℚ) (a : StandardizedMarket)
    (rest : List StandardizedMarket) (st : ScanState) :
    ∀ o ∈ (rest.foldl (fun s b => processPair minRoi s a b) st).opps,
      o ∈ st.opps ∨ OppInvariant minRoi o := by
  induction rest generalizing st with
  | nil => exact fun o ho => Or.inl ho
  | cons b rest ih =>
    intro o ho
    rw [List.foldl_cons] at ho
    rcases ih (processPair minRoi st a b) o ho with h | h
    · exact processPair_opps minRoi st a b o h
    · exact Or.inr h

/-- Lift through the outer `i` loop over a bucket. -/
theorem pairsFold_opps (minRoi : ℚ) (ms : List StandardizedMarket)
    (st : ScanState) :
    ∀ o ∈ (pairsFold minRoi st ms).opps,
      o ∈ st.opps ∨ OppInvariant minRoi o := by
  induction ms generalizing st with
  | nil => exact fun o ho => Or.inl ho
  | cons a rest ih =>
    intro o ho
    rw [pairsFold] at ho
    rcases ih _ o ho with h | h
    · exact foldl_processPair_opps minRoi a rest st o h
    · exact Or.inr h

/-- Lift through the bucket loop. -/
theorem scanIndex_opps (minRoi : ℚ) (idx : List (Str × List StandardizedMarket))
    (st : ScanState) :
    ∀ o ∈ (scanIndex minRoi st idx).opps,
      o ∈ st.opps ∨ OppInvariant minRoi o := by
  induction idx generalizing st with
  | nil => exact fun o ho => Or.inl ho
  | cons e rest ih =>
    intro o ho
    rw [scanIndex] at ho
    rcases ih _ o ho with h | h
    · by_cases hm : multiPlatform e.2 = true
      · rw [if_pos hm] at h
        exact pairsFold_opps minRoi (bucketList e.2) st o h
      · rw [if_neg hm] at h
        exact Or.inl h
    · exact Or.inr h

/-- Every emitted opportunity satisfies the push-time invariant. -/
theorem findArbitrageOpportunities_invariant (markets : List StandardizedMarket)
    (minRoi : ℚ) :
    ∀ o ∈ findArbitrageOpportunities markets minRoi, OppInvariant minRoi o := by
  intro o ho
  rw [findArbitrageOpportunities] at ho
  have ho2 : o ∈ (scanMarkets markets minRoi).opps := List.mem_mergeSort.1 ho
  rw [scanMarkets] at ho2
  rcases scanIndex_opps minRoi (buildIndex markets) _ o ho2 with h | h
  · simp at h
  · exact h

end MarketApi

/-- C5: every emitted `ArbitrageOpportunity` pairs two different
venues, carries a match score of at least the 60-point minimum (in
particular nonzero), has combined pre-fee cost strictly below 1, and
meets the caller's minimum ROI. -/
theorem C5_theorem (markets : List MarketApi.StandardizedMarket) (minRoi : ℚ)
    (o : MarketApi.ArbitrageOpportunity)
    (ho : o ∈ MarketApi.findArbitrageOpportunities markets minRoi) :
    o.marketA.platform ≠ o.marketB.platform
      ∧ 60 ≤ o.matchScore ∧ 0 < o.matchScore
      ∧ o.combinedYesCost < 1
      ∧ minRoi ≤ o.roi := by
  rcases MarketApi.findArbitrageOpportunities_invariant markets minRoi o ho with
    ⟨h1, h2, h3, h4, _⟩
  exact ⟨h1, h2, by omega, h3, h4⟩

/-- C10: every emitted opportunity is internally coherent in the
orientation it is emitted with (scenario 2 swaps the two markets):
`combinedYesCost = marketA.yesPrice + marketB.noPrice`,
`potentialProfit = 1 − combinedYesCost`, and
`roi = potentialProfit / combinedYesCost × 100`. -/
theorem C10_theorem (markets : List MarketApi.StandardizedMarket) (minRoi : ℚ)
    (o : MarketApi.ArbitrageOpportunity)
    (ho : o ∈ MarketApi.findArbitrageOpportunities markets minRoi) :
    o.combinedYesCost = o.marketA.yesPrice + o.marketB.noPrice
      ∧ o.potentialProfit = 1 - o.combinedYesCost
      ∧ o.roi = (o.potentialProfit / o.combinedYesCost) * 100 := by
  rcases MarketApi.findArbitrageOpportunities_invariant markets minRoi o ho with
    ⟨_, _, _, _, h5, h6, h7, _⟩
  exact ⟨h5, h6, h7⟩

namespace MarketApi

/-- If the two titles share no event label and both carry non-empty,
disjoint year sets, the similarity score is 0: either a veto fires
earlier, or the Jaccard gate fails, or the year conflict check fires
before any score is assigned. -/
theorem calcSim_fst_zero (a b : StandardizedMarket)
    (hev : ∀ e ∈ extractEvents a.title, e ∉ extractEvents b.title)
    (hya : (extractEntities a.title).years ≠ [])
    (hyb : (extractEntities b.title).years ≠ [])
    (hdisj : ∀ y ∈ (extractEntities a.title).years,
      y ∉ (extractEntities b.title).years) :
    (calculateSimilarity a b).1 = 0 := by
  have hfind : (extractEvents a.title).find?
      (fun ea => (extractEvents b.title).contains ea) = none := by
    rw [List.find?_eq_none]
    intro e he
    simp only [List.contains, List.elem_iff]
    exact hev e he
  have hYear : (!(extractEntities a.title).years.isEmpty
      && !(extractEntities b.title).years.isEmpty
      && !((extractEntities a.title).years.any
            (fun y => (extractEntities b.title).years.contains y))) = true := by
    have h1 : (extractEntities a.title).years.isEmpty = false := by
      simpa [List.isEmpty_iff] using hya
    have h2 : (extractEntities b.title).years.isEmpty = false := by
      simpa [List.isEmpty_iff] using hyb
    have h3 : (extractEntities a.title).years.any
        (fun y => (extractEntities b.title).years.contains y) = false := by
      rw [Bool.eq_false_iff]
      intro hany
      rcases List.any_eq_true.1 hany with ⟨y, hy, hc⟩
      simp only [List.contains] at hc
      exact hdisj y hy (List.elem_iff.1 hc)
    rw [h1, h2, h3]
    rfl
  rw [calculateSimilarity, hfind]
  simp only []
  by_cases hp : (match (extractEntities a.title).party,
      (extractEntities b.title).party with
    | some pa, some pb => !(pa == pb)
    | _, _ => false) = true
  · rw [if_pos hp]
  · rw [if_neg hp]
    by_cases hs : (!(extractEntities a.title).states.isEmpty
        && !(extractEntities b.title).states.isEmpty
        && !((extractEntities a.title).states.any
              (fun s => (extractEntities b.title).states.contains s))) = true
    · rw [if_pos hs]
    · rw [if_neg hs]
      by_cases ht : (!(extractEntities a.title).timeFrames.isEmpty
          && !(extractEntities b.title).timeFrames.isEmpty
          && !((extractEntities a.title).timeFrames.any
                (fun t => (extractEntities b.title).timeFrames.contains t))) = true
      · rw [if_pos ht]
      · rw [if_neg ht]
        by_cases hj : (1 / 4 : ℚ) ≤
            jaccardSimilarity (extractTokens a.title) (extractTokens b.title)
        · rw [if_pos hj, if_pos hYear]
        · rw [if_neg hj]

end MarketApi

/-- C1 (amended): whenever two listings share no event-pattern label
and their extracted year sets are non-empty and disjoint — as happens
for titles that differ only in the year token, provided no year-free
event pattern captures both — the similarity score is 0 in both
argument orders, and no `ArbitrageOpportunity` over that pair (in
either orientation) ever appears in `findArbitrageOpportunities`
output, for any listing snapshot and any `minRoi`. -/
theorem C1_theorem (a b : MarketApi.StandardizedMarket)
    (hev : ∀ e ∈ MarketApi.extractEvents a.title,
      e ∉ MarketApi.extractEvents b.title)
    (hya : (MarketApi.extractEntities a.title).years ≠ [])
    (hyb : (MarketApi.extractEntities b.title).years ≠ [])
    (hdisj : ∀ y ∈ (MarketApi.extractEntities a.title).years,
      y ∉ (MarketApi.extractEntities b.title).years) :
    (MarketApi.calculateSimilarity a b).1 = 0
      ∧ (MarketApi.calculateSimilarity b a).1 = 0
      ∧ ∀ (markets : List MarketApi.StandardizedMarket) (minRoi : ℚ)
          (o : MarketApi.ArbitrageOpportunity),
          o ∈ MarketApi.findArbitrageOpportunities markets minRoi →
          ¬ ((o.marketA = a ∧ o.marketB = b) ∨ (o.marketA = b ∧ o.marketB = a)) := by
  have hev2 : ∀ e ∈ MarketApi.extractEvents b.title,
      e ∉ MarketApi.extractEvents a.title := fun e heb hea => hev e hea heb
  have hdisj2 : ∀ y ∈ (MarketApi.extractEntities b.title).years,
      y ∉ (MarketApi.extractEntities a.title).years := fun y hyB hyA =>
    hdisj y hyA hyB
  have hz1 := MarketApi.calcSim_fst_zero a b hev hya hyb hdisj
  have hz2 := MarketApi.calcSim_fst_zero b a hev2 hyb hya hdisj2
  refine ⟨hz1, hz2, ?_⟩
  intro markets minRoi o ho hcon
  rcases MarketApi.findArbitrageOpportunities_invariant markets minRoi o ho with
    ⟨_, h60, _, _, _, _, _, hsc⟩
  rcases hcon with ⟨hA, hB⟩ | ⟨hA, hB⟩ <;> rw [hA, hB] at hsc <;>
    rcases hsc with h | h <;> omega

/-- Full evaluation of the aggregator on the two tariff listings: the
shared year-free event pattern scores the pair 95 although the titles
differ only in the year token, and scenario 1 (cost 0.9) is emitted. -/
theorem findOpp_tariff_eval :
    MarketApi.findArbitrageOpportunities [Examples.tariff25, Examples.tariff26] 0
      = [Examples.tariffOpp] := by
  have hsim : MarketApi.calculateSimilarity Examples.tariff25 Examples.tariff26
      = (95, str (r"trump-tariffs-china")) := by decide
  have hidx : MarketApi.buildIndex [Examples.tariff25, Examples.tariff26]
      = [(str (r"trump"), [Examples.tariff25, Examples.tariff26])] := rfl
  have hpw : List.Pairwise
      (fun a b : MarketApi.StandardizedMarket =>
        decide (b.volume ≤ a.volume) = true)
      [Examples.tariff25, Examples.tariff26] := by decide
  have hbl : MarketApi.bucketList [Examples.tariff25, Examples.tariff26]
      = [Examples.tariff25, Examples.tariff26] := by
    rw [MarketApi.bucketList, List.mergeSort_of_sorted hpw]
    exact rfl
  rw [MarketApi.findArbitrageOpportunities, MarketApi.scanMarkets, hidx,
    MarketApi.scanIndex]
  rw [if_pos (show MarketApi.multiPlatform [Examples.tariff25, Examples.tariff26]
    = true from rfl)]
  rw [hbl, MarketApi.pairsFold, List.foldl_cons, List.foldl_nil,
    MarketApi.processPair]
  rw [if_neg (show ¬ (Examples.tariff25.platform = Examples.tariff26.platform)
    by decide)]
  rw [if_neg (show ¬ (MarketApi.pairKey Examples.tariff25 Examples.tariff26
    ∈ ({ compared := [], scored := [], opps := [] }
        : MarketApi.ScanState).compared) by simp)]
  rw [hsim]
  simp only []
  rw [if_neg (show ¬ ((95 : ℕ) < 60) by norm_num)]
  rw [if_pos (show Examples.tariff25.yesPrice + Examples.tariff26.noPrice < 1 by
    rw [Examples.tariff25, Examples.tariff26] ; norm_num)]
  rw [if_pos (show (0 : ℚ) ≤
      (1 - (Examples.tariff25.yesPrice + Examples.tariff26.noPrice))
        / (Examples.tariff25.yesPrice + Examples.tariff26.noPrice) * 100 by
    rw [Examples.tariff25, Examples.tariff26] ; norm_num)]
  rw [if_neg (show ¬ (Examples.tariff25.noPrice + Examples.tariff26.yesPrice < 1)
    by rw [Examples.tariff25, Examples.tariff26] ; norm_num)]
  rw [MarketApi.pairsFold, List.foldl_nil, MarketApi.pairsFold,
    MarketApi.scanIndex]
  simp only [List.nil_append]
  rw [List.mergeSort_singleton]
  simp only [List.cons.injEq, and_true]
  rw [Examples.tariffOpp, MarketApi.ArbitrageOpportunity.mk.injEq]
  refine ⟨rfl, rfl, ?_, ?_, ?_, by norm_num, rfl⟩
  · rw [Examples.tariff25, Examples.tariff26] ; norm_num
  · rw [Examples.tariff25, Examples.tariff26] ; norm_num
  · rw [Examples.tariff25, Examples.tariff26] ; norm_num

/-- C1 counterexample: the two tariff listings' titles are identical
except for the year token (`...202` then `5` versus `6`), yet the
year-free event pattern `trump-tariffs-china` matches both, the
similarity score is 95 rather than 0, and the pair does appear in
`findArbitrageOpportunities` output. -/
theorem C1_counterexample :
    Examples.tariff25.title
        = str (r"Will Trump raise tariffs on China in 202") ++ str (r"5")
      ∧ Examples.tariff26.title
        = str (r"Will Trump raise tariffs on China in 202") ++ str (r"6")
      ∧ (MarketApi.calculateSimilarity Examples.tariff25 Examples.tariff26).1 = 95
      ∧ (95 : ℕ) ≠ 0
      ∧ Examples.tariffOpp
        ∈ MarketApi.findArbitrageOpportunities
            [Examples.tariff25, Examples.tariff26] 0
      ∧ Examples.tariffOpp.marketA = Examples.tariff25
      ∧ Examples.tariffOpp.marketB = Examples.tariff26 := by
  refine ⟨by decide, by decide, by decide, by norm_num, ?_, rfl, rfl⟩
  rw [findOpp_tariff_eval]
  exact List.mem_singleton.2 rfl

/-- Witness for C1 at the recession pair: the hypotheses hold there
(no shared event label, non-empty disjoint year sets) and the theorem
yields score 0. -/
theorem C1_witness :
    (∀ e ∈ MarketApi.extractEvents Examples.recession25.title,
      e ∉ MarketApi.extractEvents Examples.recession26.title)
      ∧ (MarketApi.extractEntities Examples.recession25.title).years ≠ []
      ∧ (MarketApi.extractEntities Examples.recession26.title).years ≠ []
      ∧ (MarketApi.calculateSimilarity Examples.recession25
          Examples.recession26).1 = 0 :=
  ⟨by decide, by decide, by decide,
    (C1_theorem Examples.recession25 Examples.recession26 (by decide) (by decide)
      (by decide) (by decide)).1⟩

/-- Witness for C5 at the emitted tariff opportunity. -/
theorem C5_witness :
    Examples.tariffOpp.marketA.platform ≠ Examples.tariffOpp.marketB.platform
      ∧ 60 ≤ Examples.tariffOpp.matchScore ∧ 0 < Examples.tariffOpp.matchScore
      ∧ Examples.tariffOpp.combinedYesCost < 1
      ∧ (0 : ℚ) ≤ Examples.tariffOpp.roi :=
  C5_theorem [Examples.tariff25, Examples.tariff26] 0 Examples.tariffOpp
    (by rw [findOpp_tariff_eval] ; exact List.mem_singleton.2 rfl)

/-- Witness for C10 at the emitted tariff opportunity. -/
theorem C10_witness :
    Examples.tariffOpp.combinedYesCost
        = Examples.tariffOpp.marketA.yesPrice + Examples.tariffOpp.marketB.noPrice
      ∧ Examples.tariffOpp.potentialProfit = 1 - Examples.tariffOpp.combinedYesCost
      ∧ Examples.tariffOpp.roi
        = (Examples.tariffOpp.potentialProfit / Examples.tariffOpp.combinedYesCost)
            * 100 :=
  C10_theorem [Examples.tariff25, Examples.tariff26] 0 Examples.tariffOpp
    (by rw [findOpp_tariff_eval] ; exact List.mem_singleton.2 rfl)

/-! ### The seen-pairs key and the compared/scored ghost of the loop -/

namespace MarketApi

/-- One `processPair` step has exactly the `pairStep` effect on the
compared-keys and scored-pairs components. -/
theorem processPair_ghost (minRoi : ℚ) (st : ScanState)
    (a b : StandardizedMarket) :
    ((processPair minRoi st a b).compared, (processPair minRoi st a b).scored)
      = pairStep (st.compared, st.scored) a b := by
  rw [processPair, pairStep]
  simp only []
  by_cases h1 : a.platform = b.platform
  · rw [if_pos h1, if_pos h1]
  · rw [if_neg h1, if_neg h1]
    by_cases h2 : pairKey a b ∈ st.compared
    · rw [if_pos h2, if_pos h2]
    · rw [if_neg h2, if_neg h2]
      split_ifs <;> rfl

/-- Ghost of the inner `j` loop. -/
theorem foldl_processPair_ghost (minRoi : ℚ) (a : StandardizedMarket)
    (rest : List StandardizedMarket) (st : ScanState) :
    (((rest.foldl (fun s b => processPair minRoi s a b) st).compared),
      ((rest.foldl (fun s b => processPair minRoi s a b) st).scored))
      = rest.foldl (fun s b => pairStep s a b) (st.compared, st.scored) := by
  induction rest generalizing st with
  | nil => rfl
  | cons b rest ih =>
    rw [List.foldl_cons, List.foldl_cons, ih, processPair_ghost]

/-- Ghost of the outer `i` loop. -/
theorem pairsFold_ghost (minRoi : ℚ) (ms : List StandardizedMarket)
    (st : ScanState) :
    ((pairsFold minRoi st ms).compared, (pairsFold minRoi st ms).scored)
      = ghostPairs (st.compared, st.scored) ms := by
  induction ms generalizing st with
  | nil => rfl
  | cons a rest ih =>
    rw [pairsFold, ghostPairs, ih, foldl_processPair_ghost]

/-- Ghost of the bucket loop. -/
theorem scanIndex_ghost (minRoi : ℚ)
    (idx : List (Str × List StandardizedMarket)) (st : ScanState) :
    ((scanIndex minRoi st idx).compared, (scanIndex minRoi st idx).scored)
      = ghostIndex (st.compared, st.scored) idx := by
  induction idx generalizing st with
  | nil => rfl
  | cons e rest ih =>
    rcases e with ⟨k, ms⟩
    rw [scanIndex, ghostIndex, ih]
    by_cases hm : multiPlatform ms = true
    · rw [if_pos hm, if_pos hm, pairsFold_ghost]
    · rw [if_neg hm, if_neg hm]

/-- The scorer-call record of a traversal is the ghost's second
component. -/
theorem scoredPairs_ghost (markets : List StandardizedMarket) (minRoi : ℚ) :
    scoredPairs markets minRoi = (ghostScan markets).2 := by
  have h := scanIndex_ghost minRoi (buildIndex markets)
    { compared := [], scored := [], opps := [] }
  rw [scoredPairs, scanMarkets, ghostScan]
  exact congrArg Prod.snd h

/-- `strLe` is total. -/
theorem strLe_total (s t : Str) : strLe s t = true ∨ strLe t s = true := by
  induction s generalizing t with
  | nil => exact Or.inl rfl
  | cons c s ih =>
    cases t with
    | nil => exact Or.inr rfl
    | cons d t =>
      rw [strLe, strLe]
      rcases lt_trichotomy c d with h | h | h
      · refine Or.inl ?_
        simp [h]
      · subst h
        rcases ih t with h2 | h2 <;> [exact Or.inl (by simp [h2]);
          exact Or.inr (by simp [h2])]
      · refine Or.inr ?_
        simp [h]

/-- `strLe` is antisymmetric. -/
theorem strLe_antisymm (s t : Str) (h1 : strLe s t = true)
    (h2 : strLe t s = true) : s = t := by
  induction s generalizing t with
  | nil =>
    cases t with
    | nil => rfl
    | cons d t => exact absurd h2 (by rw [strLe] ; simp)
  | cons c s ih =>
    cases t with
    | nil => exact absurd h1 (by rw [strLe] ; simp)
    | cons d t =>
      rw [strLe] at h1 h2
      simp only [Bool.or_eq_true, Bool.and_eq_true, decide_eq_true_eq] at h1 h2
      rcases h1 with h1 | ⟨rfl, h1⟩
      · rcases h2 with h2 | ⟨he, h2⟩
        · exact absurd h2 (not_lt_of_gt h1)
        · exact absurd h1 (by rw [he] ; exact lt_irrefl c)
      · rcases h2 with h2 | ⟨_, h2⟩
        · exact absurd h2 (lt_irrefl c)
        · rw [ih t h1 h2]

/-- The seen-pairs key is order-independent in the two listings. -/
theorem pairKey_symm (a b : StandardizedMarket) : pairKey a b = pairKey b a := by
  rw [pairKey, pairKey]
  by_cases h1 : strLe a.id b.id = true
  · rw [if_pos h1]
    by_cases h2 : strLe b.id a.id = true
    · rw [if_pos h2, strLe_antisymm a.id b.id h1 h2]
    · rw [if_neg h2]
  · rw [if_neg h1]
    rcases strLe_total a.id b.id with h2 | h2
    · exact absurd h2 h1
    · rw [if_pos h2]

/-- Unique decomposition around the joining hyphen when neither side
contains one. -/
theorem dash_join_inj (x z : Str) (w : Str) : ∀ (y : Str), '-' ∉ w → '-' ∉ y →
    w ++ '-' :: x = y ++ '-' :: z → w = y ∧ x = z := by
  induction w with
  | nil =>
    intro y hw hy h
    cases y with
    | nil => exact ⟨rfl, by simpa using h⟩
    | cons d y =>
      simp only [List.nil_append, List.cons_append, List.cons.injEq] at h
      exact absurd (show ('-' : Char) ∈ d :: y by
        rw [← h.1] ; exact List.mem_cons_self _ _) hy
  | cons c w ih =>
    intro y hw hy h
    cases y with
    | nil =>
      simp only [List.cons_append, List.nil_append, List.cons.injEq] at h
      exact absurd (show ('-' : Char) ∈ c :: w by
        rw [h.1] ; exact List.mem_cons_self _ _) hw
    | cons d y =>
      simp only [List.cons_append, List.cons.injEq] at h
      have hw2 : ('-' : Char) ∉ w := fun hm => hw (List.mem_cons_of_mem c hm)
      have hy2 : ('-' : Char) ∉ y := fun hm => hy (List.mem_cons_of_mem d hm)
      rcases ih y hw2 hy2 h.2 with ⟨hwy, hxz⟩
      exact ⟨by rw [h.1, hwy], hxz⟩

/-- The joined key form of `pairKey`. -/
theorem pairKey_eq (a b : StandardizedMarket) :
    pairKey a b = a.id ++ '-' :: b.id ∨ pairKey a b = b.id ++ '-' :: a.id := by
  rw [pairKey]
  by_cases h : strLe a.id b.id = true
  · rw [if_pos h]
    exact Or.inl (by rw [List.append_assoc] ; rfl)
  · rw [if_neg h]
    exact Or.inr (by rw [List.append_assoc] ; rfl)

/-- With hyphen-free ids, equal keys force equal unordered id pairs. -/
theorem pairKey_inj (a b c d : StandardizedMarket)
    (ha : '-' ∉ a.id) (hb : '-' ∉ b.id) (hc : '-' ∉ c.id) (hd : '-' ∉ d.id)
    (h : pairKey a b = pairKey c d) :
    (a.id = c.id ∧ b.id = d.id) ∨ (a.id = d.id ∧ b.id = c.id) := by
  rcases pairKey_eq a b with h1 | h1 <;> rcases pairKey_eq c d with h2 | h2 <;>
    rw [h1, h2] at h
  · exact Or.inl (dash_join_inj _ _ _ _ ha hc h)
  · exact Or.inr (dash_join_inj _ _ _ _ ha hd h)
  · rcases dash_join_inj _ _ _ _ hb hc h with ⟨e1, e2⟩
    exact Or.inr ⟨e2, e1⟩
  · rcases dash_join_inj _ _ _ _ hb hd h with ⟨e1, e2⟩
    exact Or.inl ⟨e2, e1⟩

end MarketApi

/-! ### Provenance, invariant preservation and reachability of pairs -/

namespace MarketApi

/-- `upsert` keeps every bucket member inside the snapshot. -/
theorem upsert_mem (ms : List StandardizedMarket) (key : Str)
    (m : StandardizedMarket) (hm : m ∈ ms) :
    ∀ idx, (∀ e ∈ idx, ∀ x ∈ e.2, x ∈ ms) →
      ∀ e ∈ upsert key m idx, ∀ x ∈ e.2, x ∈ ms := by
  intro idx
  induction idx with
  | nil =>
    intro _ e he x hx
    rw [upsert] at he
    rcases List.mem_singleton.1 he with rfl
    rcases List.mem_singleton.1 hx with rfl
    exact hm
  | cons d rest ih =>
    intro h e he x hx
    rcases d with ⟨k, bs⟩
    rw [upsert] at he
    by_cases hk : k = key
    · rw [if_pos hk] at he
      rcases List.mem_cons.1 he with rfl | he2
      · rcases List.mem_append.1 hx with hx1 | hx2
        · exact h (k, bs) (List.mem_cons_self _ _) x hx1
        · rcases List.mem_singleton.1 hx2 with rfl
          exact hm
      · exact h e (List.mem_cons_of_mem _ he2) x hx
    · rw [if_neg hk] at he
      rcases List.mem_cons.1 he with rfl | he2
      · exact h (k, bs) (List.mem_cons_self _ _) x hx
      · exact ih (fun e' he' => h e' (List.mem_cons_of_mem _ he'))
          e he2 x hx

/-- A generic left-fold preservation principle. -/
theorem foldl_preserve {β γ : Type} (P : γ → Prop) (f : γ → β → γ)
    (l : List β) (Q : β → Prop) (hl : ∀ x ∈ l, Q x)
    (hf : ∀ acc x, Q x → P acc → P (f acc x)) :
    ∀ acc, P acc → P (l.foldl f acc) := by
  induction l with
  | nil => exact fun acc h => h
  | cons x rest ih =>
    intro acc h
    rw [List.foldl_cons]
    exact ih (fun y hy => hl y (List.mem_cons_of_mem _ hy))
      (f acc x) (hf acc x (hl x (List.mem_cons_self _ _)) h)

/-- `indexMarket` keeps every bucket member inside the snapshot. -/
theorem indexMarket_mem (ms : List StandardizedMarket)
    (m : StandardizedMarket) (hm : m ∈ ms)
    (idx : List (Str × List StandardizedMarket))
    (h : ∀ e ∈ idx, ∀ x ∈ e.2, x ∈ ms) :
    ∀ e ∈ indexMarket idx m, ∀ x ∈ e.2, x ∈ ms := by
  rw [indexMarket]
  refine foldl_preserve
    (fun (idx2 : List (Str × List StandardizedMarket)) =>
      ∀ e ∈ idx2, ∀ x ∈ e.2, x ∈ ms) _ entityPatterns
    (fun _ => True) (fun _ _ => trivial) ?_ _ ?_
  · intro acc ep _ hacc
    by_cases hc : ep.2 (toLowerStr m.title) = true
    · rw [if_pos hc]
      exact upsert_mem ms ep.1 m hm acc hacc
    · rw [if_neg hc]
      exact hacc
  · refine foldl_preserve
      (fun (idx2 : List (Str × List StandardizedMarket)) =>
      ∀ e ∈ idx2, ∀ x ∈ e.2, x ∈ ms) _ topics
      (fun _ => True) (fun _ _ => trivial) ?_ _ h
    intro acc topic _ hacc
    by_cases hc : containsSub topic (toLowerStr m.title) = true
    · rw [if_pos hc]
      refine foldl_preserve
        (fun (idx2 : List (Str × List StandardizedMarket)) =>
      ∀ e ∈ idx2, ∀ x ∈ e.2, x ∈ ms) _ indexYears
        (fun _ => True) (fun _ _ => trivial) ?_ _ hacc
      intro acc2 year _ hacc2
      by_cases hy : containsSub year (toLowerStr m.title) = true
      · rw [if_pos hy]
        exact upsert_mem ms _ m hm acc2 hacc2
      · rw [if_neg hy]
        exact hacc2
    · rw [if_neg hc]
      exact hacc

/-- Every market in any bucket of the keyword index belongs to the
snapshot. -/
theorem buildIndex_mem (ms : List StandardizedMarket) :
    ∀ e ∈ buildIndex ms, ∀ x ∈ e.2, x ∈ ms := by
  rw [buildIndex]
  refine foldl_preserve
    (fun (idx2 : List (Str × List StandardizedMarket)) =>
      ∀ e ∈ idx2, ∀ x ∈ e.2, x ∈ ms) _ ms
    (fun m => m ∈ ms) (fun x hx => hx) ?_ _
    (by intro e he ; exact absurd he (List.not_mem_nil e))
  intro acc m hm hacc
  exact indexMarket_mem ms m hm acc hacc

/-- Members of a sorted, capped bucket belong to the bucket. -/
theorem bucketList_mem (ms : List StandardizedMarket)
    (x : StandardizedMarket) (hx : x ∈ bucketList ms) : x ∈ ms := by
  rw [bucketList] at hx
  exact List.mem_mergeSort.1 (List.mem_of_mem_take hx)

/-- One `pairStep` preserves the invariant. -/
theorem pairStep_inv (ms : List StandardizedMarket) (st : GhostState)
    (a b : StandardizedMarket) (ha : a ∈ ms) (hb : b ∈ ms)
    (h : GhostInv ms st) : GhostInv ms (pairStep st a b) := by
  rcases h with ⟨h1, h2, h3, h4⟩
  rw [pairStep]
  split_ifs with hp hk
  · exact ⟨h1, h2, h3, h4⟩
  · exact ⟨h1, h2, h3, h4⟩
  · refine ⟨?_, ?_, ?_, ?_⟩
    · intro k hkm
      rcases List.mem_append.1 hkm with hold | hnew
      · rcases h1 k hold with ⟨p, hp1, hp2⟩
        exact ⟨p, List.mem_append_left _ hp1, hp2⟩
      · rcases List.mem_singleton.1 hnew with rfl
        exact ⟨(a, b), List.mem_append_right _ (List.mem_singleton.2 rfl), rfl⟩
    · intro p hpm
      rcases List.mem_append.1 hpm with hold | hnew
      · exact List.mem_append_left _ (h2 p hold)
      · rcases List.mem_singleton.1 hnew with rfl
        exact List.mem_append_right _ (List.mem_singleton.2 rfl)
    · rw [List.map_append]
      rw [List.nodup_append]
      refine ⟨h3, List.nodup_singleton _, ?_⟩
      intro k hkm hks
      rcases List.mem_map.1 hkm with ⟨p, hpm, hpk⟩
      rcases List.mem_singleton.1 hks with rfl
      have hpk2 : pairKey p.1 p.2 = pairKey a b := by simpa using hpk
      exact hk (hpk2 ▸ h2 p hpm)
    · intro p hpm
      rcases List.mem_append.1 hpm with hold | hnew
      · exact h4 p hold
      · rcases List.mem_singleton.1 hnew with rfl
        exact ⟨ha, hb⟩

/-- The inner loop preserves the invariant. -/
theorem foldl_pairStep_inv (ms : List StandardizedMarket)
    (a : StandardizedMarket) (ha : a ∈ ms) (rest : List StandardizedMarket)
    (hrest : ∀ x ∈ rest, x ∈ ms) (st : GhostState) (h : GhostInv ms st) :
    GhostInv ms (rest.foldl (fun s b => pairStep s a b) st) :=
  foldl_preserve (GhostInv ms) _ rest (fun x => x ∈ ms) hrest
    (fun acc x hx hacc => pairStep_inv ms acc a x ha hx hacc) st h

/-- The outer loop preserves the invariant. -/
theorem ghostPairs_inv (ms l : List StandardizedMarket)
    (hl : ∀ x ∈ l, x ∈ ms) :
    ∀ st, GhostInv ms st → GhostInv ms (ghostPairs st l) := by
  induction l with
  | nil => exact fun st h => h
  | cons a rest ih =>
    intro st h
    rw [ghostPairs]
    exact ih (fun x hx => hl x (List.mem_cons_of_mem _ hx)) _
      (foldl_pairStep_inv ms a (hl a (List.mem_cons_self _ _)) rest
        (fun x hx => hl x (List.mem_cons_of_mem _ hx)) st h)

/-- The bucket loop preserves the invariant. -/
theorem ghostIndex_inv (ms : List StandardizedMarket) :
    ∀ (idx : List (Str × List StandardizedMarket)),
      (∀ e ∈ idx, ∀ x ∈ e.2, x ∈ ms) →
      ∀ st, GhostInv ms st → GhostInv ms (ghostIndex st idx) := by
  intro idx
  induction idx with
  | nil => exact fun _ st h => h
  | cons e rest ih =>
    intro hidx st h
    rcases e with ⟨k, bms⟩
    rw [ghostIndex]
    refine ih (fun e' he' => hidx e' (List.mem_cons_of_mem _ he')) _ ?_
    by_cases hm : multiPlatform bms = true
    · rw [if_pos hm]
      exact ghostPairs_inv ms (bucketList bms)
        (fun x hx => hidx (k, bms) (List.mem_cons_self _ _) x
          (bucketList_mem bms x hx)) st h
    · rw [if_neg hm]
      exact h

/-- The invariant holds for the whole traversal. -/
theorem ghostScan_inv (ms : List StandardizedMarket) :
    GhostInv ms (ghostScan ms) := by
  rw [ghostScan]
  refine ghostIndex_inv ms (buildIndex ms) (buildIndex_mem ms) ([], []) ?_
  exact ⟨fun k hk => absurd hk (List.not_mem_nil k),
    fun p hp => absurd hp (List.not_mem_nil p), List.nodup_nil,
    fun p hp => absurd hp (List.not_mem_nil p)⟩

/-- `pairStep` never removes a recorded key. -/
theorem pairStep_fst_mono (st : GhostState) (a b : StandardizedMarket)
    (k : Str) (hk : k ∈ st.1) : k ∈ (pairStep st a b).1 := by
  rw [pairStep]
  split_ifs
  · exact hk
  · exact hk
  · exact List.mem_append_left _ hk

/-- The inner loop never removes a recorded key. -/
theorem foldl_pairStep_fst_mono (a : StandardizedMarket)
    (rest : List StandardizedMarket) (st : GhostState) (k : Str)
    (hk : k ∈ st.1) :
    k ∈ (rest.foldl (fun s b => pairStep s a b) st).1 :=
  foldl_preserve (fun s => k ∈ s.1) _ rest (fun _ => True) (fun _ _ => trivial)
    (fun acc x _ hacc => pairStep_fst_mono acc a x k hacc) st hk

/-- The outer loop never removes a recorded key. -/
theorem ghostPairs_fst_mono (l : List StandardizedMarket) :
    ∀ (st : GhostState) (k : Str), k ∈ st.1 → k ∈ (ghostPairs st l).1 := by
  induction l with
  | nil => exact fun st k hk => hk
  | cons a rest ih =>
    intro st k hk
    rw [ghostPairs]
    exact ih _ k (foldl_pairStep_fst_mono a rest st k hk)

/-- The bucket loop never removes a recorded key. -/
theorem ghostIndex_fst_mono :
    ∀ (idx : List (Str × List StandardizedMarket)) (st : GhostState) (k : Str),
      k ∈ st.1 → k ∈ (ghostIndex st idx).1 := by
  intro idx
  induction idx with
  | nil => exact fun st k hk => hk
  | cons e rest ih =>
    intro st k hk
    rcases e with ⟨k0, bms⟩
    rw [ghostIndex]
    refine ih _ k ?_
    by_cases hm : multiPlatform bms = true
    · rw [if_pos hm]
      exact ghostPairs_fst_mono (bucketList bms) st k hk
    · rw [if_neg hm]
      exact hk

/-- Processing a cross-venue pair records its key. -/
theorem pairStep_key_mem (st : GhostState) (a b : StandardizedMarket)
    (hp : a.platform ≠ b.platform) : pairKey a b ∈ (pairStep st a b).1 := by
  rw [pairStep, if_neg hp]
  by_cases hk : pairKey a b ∈ st.1
  · rw [if_pos hk]
    exact hk
  · rw [if_neg hk]
    exact List.mem_append_right _ (List.mem_singleton.2 rfl)

/-- The inner loop reaches every remaining partner of `a`. -/
theorem foldl_pairStep_reach (a b : StandardizedMarket)
    (hp : a.platform ≠ b.platform) :
    ∀ (rest : List StandardizedMarket) (st : GhostState), b ∈ rest →
      pairKey a b ∈ (rest.foldl (fun s x => pairStep s a x) st).1 := by
  intro rest
  induction rest with
  | nil => exact fun st hb => absurd hb (List.not_mem_nil b)
  | cons x rest ih =>
    intro st hb
    rw [List.foldl_cons]
    rcases List.mem_cons.1 hb with rfl | hb2
    · exact foldl_pairStep_fst_mono a rest _ _ (pairStep_key_mem st a b hp)
    · exact ih _ hb2

/-- The pair loops over one bucket reach every cross-venue pair in it. -/
theorem ghostPairs_reach (a b : StandardizedMarket)
    (hp : a.platform ≠ b.platform) (hne : a ≠ b) :
    ∀ (l : List StandardizedMarket) (st : GhostState), a ∈ l → b ∈ l →
      pairKey a b ∈ (ghostPairs st l).1 := by
  intro l
  induction l with
  | nil => exact fun st ha => absurd ha (List.not_mem_nil a)
  | cons m rest ih =>
    intro st ha hb
    rw [ghostPairs]
    rcases List.mem_cons.1 ha with rfl | ha2
    · rcases List.mem_cons.1 hb with rfl | hb2
      · exact absurd rfl hne
      · exact ghostPairs_fst_mono rest _ _
          (foldl_pairStep_reach a b hp rest st hb2)
    · rcases List.mem_cons.1 hb with rfl | hb2
      · refine ghostPairs_fst_mono rest _ _ ?_
        rw [pairKey_symm]
        exact foldl_pairStep_reach b a (fun h => hp h.symm) rest st ha2
      · exact ih _ ha2 hb2

/-- The traversal reaches every cross-venue pair co-occurring in a
retained bucket. -/
theorem ghostIndex_reach (a b : StandardizedMarket)
    (hp : a.platform ≠ b.platform) (hne : a ≠ b) (k0 : Str)
    (bms : List StandardizedMarket) (hm : multiPlatform bms = true)
    (ha : a ∈ bucketList bms) (hb : b ∈ bucketList bms) :
    ∀ (idx : List (Str × List StandardizedMarket)) (st : GhostState),
      (k0, bms) ∈ idx → pairKey a b ∈ (ghostIndex st idx).1 := by
  intro idx
  induction idx with
  | nil => exact fun st he => absurd he (List.not_mem_nil _)
  | cons e rest ih =>
    intro st he
    rcases e with ⟨k1, bms1⟩
    rw [ghostIndex]
    rcases List.mem_cons.1 he with heq | he2
    · rcases Prod.mk.injEq .. ▸ heq with ⟨rfl, rfl⟩
      rw [if_pos hm]
      exact ghostIndex_fst_mono rest _ _
        (ghostPairs_reach a b hp hne (bucketList bms) st ha hb)
    · exact ih _ he2

/-- With duplicate-free keys, at most one scored pair carries any given
key. -/
theorem countP_key_le_one
    (l : List (StandardizedMarket × StandardizedMarket))
    (h : (l.map fun p => pairKey p.1 p.2).Nodup) (k : Str) :
    l.countP (fun p => decide (pairKey p.1 p.2 = k)) ≤ 1 := by
  induction l with
  | nil => simp [List.countP_nil]
  | cons p rest ih =>
    rw [List.map_cons, List.nodup_cons] at h
    rw [List.countP_cons]
    by_cases hp : pairKey p.1 p.2 = k
    · have hz : rest.countP (fun q => decide (pairKey q.1 q.2 = k)) = 0 := by
        rw [List.countP_eq_zero]
        intro q hq hqk
        rw [decide_eq_true_eq] at hqk
        exact h.1 (List.mem_map.2 ⟨q, hq, by rw [hqk, hp]⟩)
      simp [hz, hp]
    · simp only [hp, decide_False]
      simpa using ih h.2

end MarketApi

/-! ### C9: each cross-venue pair in a retained bucket is scored once -/

/-- C9 (amended): during one invocation of `findArbitrageOpportunities`
over listings with pairwise distinct, hyphen-free ids, every unordered
cross-venue pair of listings that co-occurs in at least one retained
bucket is passed to the similarity scorer exactly once (in either
orientation), and the seen-pairs key is order-independent in the two
listings. (The hyphen-free proviso is necessary: the key joins the two
ids with `-`, so ids containing hyphens can collide — see the
counterexample.) -/
theorem C9_theorem (markets : List MarketApi.StandardizedMarket) (minRoi : ℚ)
    (a b : MarketApi.StandardizedMarket)
    (hids : (markets.map fun m => m.id).Nodup)
    (hdash : ∀ m ∈ markets, ('-' : Char) ∉ m.id)
    (hp : a.platform ≠ b.platform)
    (hbucket : ∃ e ∈ MarketApi.buildIndex markets,
        MarketApi.multiPlatform e.2 = true
          ∧ a ∈ MarketApi.bucketList e.2 ∧ b ∈ MarketApi.bucketList e.2) :
    (MarketApi.scoredPairs markets minRoi).countP
        (fun q => decide ((q.1 = a ∧ q.2 = b) ∨ (q.1 = b ∧ q.2 = a))) = 1
      ∧ MarketApi.pairKey a b = MarketApi.pairKey b a := by
  obtain ⟨⟨k0, bms⟩, he, hm, hae, hbe⟩ := hbucket
  have hamem : a ∈ markets :=
    MarketApi.buildIndex_mem markets (k0, bms) he a
      (MarketApi.bucketList_mem bms a hae)
  have hbmem : b ∈ markets :=
    MarketApi.buildIndex_mem markets (k0, bms) he b
      (MarketApi.bucketList_mem bms b hbe)
  have hne : a ≠ b := fun h => hp (by rw [h])
  obtain ⟨h1, h2, h3, h4⟩ := MarketApi.ghostScan_inv markets
  have hkey : MarketApi.pairKey a b ∈ (MarketApi.ghostScan markets).1 := by
    rw [MarketApi.ghostScan]
    exact MarketApi.ghostIndex_reach a b hp hne k0 bms hm hae hbe
      (MarketApi.buildIndex markets) ([], []) he
  have hidinj := List.inj_on_of_nodup_map hids
  refine ⟨?_, MarketApi.pairKey_symm a b⟩
  obtain ⟨p, hpm, hpk⟩ := h1 (MarketApi.pairKey a b) hkey
  obtain ⟨hpmem1, hpmem2⟩ := h4 p hpm
  have hcase : (p.1 = a ∧ p.2 = b) ∨ (p.1 = b ∧ p.2 = a) := by
    rcases MarketApi.pairKey_inj p.1 p.2 a b (hdash _ hpmem1) (hdash _ hpmem2)
        (hdash _ hamem) (hdash _ hbmem) hpk with ⟨e1, e2⟩ | ⟨e1, e2⟩
    · exact Or.inl ⟨hidinj hpmem1 hamem e1, hidinj hpmem2 hbmem e2⟩
    · exact Or.inr ⟨hidinj hpmem1 hbmem e1, hidinj hpmem2 hamem e2⟩
  have hge : 0 < (MarketApi.scoredPairs markets minRoi).countP
      (fun q => decide ((q.1 = a ∧ q.2 = b) ∨ (q.1 = b ∧ q.2 = a))) := by
    rw [MarketApi.scoredPairs_ghost]
    exact List.countP_pos_iff.2 ⟨p, hpm, decide_eq_true hcase⟩
  have hle : (MarketApi.scoredPairs markets minRoi).countP
      (fun q => decide ((q.1 = a ∧ q.2 = b) ∨ (q.1 = b ∧ q.2 = a))) ≤ 1 := by
    rw [MarketApi.scoredPairs_ghost]
    refine le_trans (List.countP_mono_left ?_)
      (MarketApi.countP_key_le_one (MarketApi.ghostScan markets).2 h3
        (MarketApi.pairKey a b))
    intro q hq hqp
    simp only [decide_eq_true_eq] at hqp
    rcases hqp with ⟨e1, e2⟩ | ⟨e1, e2⟩
    · rw [e1, e2]
      exact decide_eq_true rfl
    · rw [e1, e2]
      exact decide_eq_true (MarketApi.pairKey_symm b a)
  exact le_antisymm hle hge

/-- C9 counterexample to the original claim: the four listings
`ghost1..ghost4` have pairwise distinct ids, the cross-venue pair
`(ghost3, ghost4)` co-occurs in the retained `trump` bucket, yet the
scorer is never called on it: its seen-pairs key `x-y-z` already
belongs to the compared set, recorded for the earlier pair
`(ghost1, ghost2)`, because the key joins ids with `-` and the ids
themselves contain hyphens. -/
theorem C9_counterexample :
    (([Examples.ghost1, Examples.ghost2, Examples.ghost3,
          Examples.ghost4].map fun m => m.id).Nodup
        ∧ Examples.ghost3.platform ≠ Examples.ghost4.platform
        ∧ (∃ e ∈ MarketApi.buildIndex [Examples.ghost1, Examples.ghost2,
              Examples.ghost3, Examples.ghost4],
            MarketApi.multiPlatform e.2 = true
              ∧ Examples.ghost3 ∈ MarketApi.bucketList e.2
              ∧ Examples.ghost4 ∈ MarketApi.bucketList e.2))
      ∧ (MarketApi.scoredPairs [Examples.ghost1, Examples.ghost2,
            Examples.ghost3, Examples.ghost4] 0).countP
          (fun q => decide ((q.1 = Examples.ghost3 ∧ q.2 = Examples.ghost4)
            ∨ (q.1 = Examples.ghost4 ∧ q.2 = Examples.ghost3))) = 0 := by
  have hidx : MarketApi.buildIndex [Examples.ghost1, Examples.ghost2,
        Examples.ghost3, Examples.ghost4]
      = [(str (r"trump"), [Examples.ghost1, Examples.ghost2,
          Examples.ghost3, Examples.ghost4])] := rfl
  have hpw : List.Pairwise
      (fun a b : MarketApi.StandardizedMarket =>
        decide (b.volume ≤ a.volume) = true)
      [Examples.ghost1, Examples.ghost2, Examples.ghost3, Examples.ghost4] := by
    decide
  have hbl : MarketApi.bucketList [Examples.ghost1, Examples.ghost2,
        Examples.ghost3, Examples.ghost4]
      = [Examples.ghost1, Examples.ghost2, Examples.ghost3, Examples.ghost4] := by
    rw [MarketApi.bucketList, List.mergeSort_of_sorted hpw]
    exact rfl
  refine ⟨⟨by decide, by decide, ?_⟩, ?_⟩
  · refine ⟨(str (r"trump"), [Examples.ghost1, Examples.ghost2,
        Examples.ghost3, Examples.ghost4]), ?_, rfl, ?_, ?_⟩
    · rw [hidx]
      exact List.mem_singleton.2 rfl
    · show Examples.ghost3 ∈ MarketApi.bucketList [Examples.ghost1,
        Examples.ghost2, Examples.ghost3, Examples.ghost4]
      rw [hbl]
      exact List.mem_cons_of_mem _ (List.mem_cons_of_mem _
        (List.mem_cons_self _ _))
    · show Examples.ghost4 ∈ MarketApi.bucketList [Examples.ghost1,
        Examples.ghost2, Examples.ghost3, Examples.ghost4]
      rw [hbl]
      exact List.mem_cons_of_mem _ (List.mem_cons_of_mem _
        (List.mem_cons_of_mem _ (List.mem_cons_self _ _)))
  · rw [MarketApi.scoredPairs_ghost, MarketApi.ghostScan, hidx,
      MarketApi.ghostIndex]
    rw [if_pos (show MarketApi.multiPlatform [Examples.ghost1, Examples.ghost2,
        Examples.ghost3, Examples.ghost4] = true from rfl)]
    rw [hbl]
    decide

/-- C9 witness: for the hyphen-free cross-venue pair
`plain1`/`plain2`, both sharing the retained `trump` bucket, the
amended theorem yields exactly one scorer call and a symmetric
seen-pairs key. -/
theorem C9_witness :
    (([Examples.plain1, Examples.plain2].map fun m => m.id).Nodup
        ∧ (∀ m ∈ [Examples.plain1, Examples.plain2], ('-' : Char) ∉ m.id)
        ∧ Examples.plain1.platform ≠ Examples.plain2.platform)
      ∧ (MarketApi.scoredPairs [Examples.plain1, Examples.plain2] 0).countP
          (fun q => decide ((q.1 = Examples.plain1 ∧ q.2 = Examples.plain2)
            ∨ (q.1 = Examples.plain2 ∧ q.2 = Examples.plain1))) = 1
        ∧ MarketApi.pairKey Examples.plain1 Examples.plain2
            = MarketApi.pairKey Examples.plain2 Examples.plain1 := by
  have hpw : List.Pairwise
      (fun a b : MarketApi.StandardizedMarket =>
        decide (b.volume ≤ a.volume) = true)
      [Examples.plain1, Examples.plain2] := by decide
  have hbl : MarketApi.bucketList [Examples.plain1, Examples.plain2]
      = [Examples.plain1, Examples.plain2] := by
    rw [MarketApi.bucketList, List.mergeSort_of_sorted hpw]
    exact rfl
  have hbucket : ∃ e ∈ MarketApi.buildIndex [Examples.plain1, Examples.plain2],
      MarketApi.multiPlatform e.2 = true
        ∧ Examples.plain1 ∈ MarketApi.bucketList e.2
        ∧ Examples.plain2 ∈ MarketApi.bucketList e.2 := by
    refine ⟨(str (r"trump"), [Examples.plain1, Examples.plain2]), ?_, rfl,
      ?_, ?_⟩
    · rw [show MarketApi.buildIndex [Examples.plain1, Examples.plain2]
        = [(str (r"trump"), [Examples.plain1, Examples.plain2])] from rfl]
      exact List.mem_singleton.2 rfl
    · show Examples.plain1 ∈ MarketApi.bucketList [Examples.plain1,
        Examples.plain2]
      rw [hbl]
      exact List.mem_cons_self _ _
    · show Examples.plain2 ∈ MarketApi.bucketList [Examples.plain1,
        Examples.plain2]
      rw [hbl]
      exact List.mem_cons_of_mem _ (List.mem_cons_self _ _)
  refine ⟨⟨by decide, by decide, by decide⟩, ?_⟩
  exact C9_theorem [Examples.plain1, Examples.plain2] 0 Examples.plain1
    Examples.plain2 (by decide) (by decide) (by decide) hbucket
